import Mathlib

/-!
Verification of the jsondiff comparison engine (the variant with the full
option set: `FindDifferences` / `findDifferencesWithOptions` together with
the helpers in `valuecompare.go`).

JSON values are the trees produced by Go's `encoding/json` unmarshalling
into `interface\x7b\x7d`: `nil`, `bool`, `float64`, `string`,
`[]interface\x7b\x7d` and `map[string]interface\x7b\x7d`.  The embedding
models numbers as exact rationals (`Rat`): every numeric literal in the
claims is exactly representable, so the float64 rounding performed by Go
is not observable on them.  Go maps are modelled as association lists in a
fixed iteration order (Go's `range` order over a map is unspecified; every
map access in the source is by key, or feeds a set that is sorted before
use, so only duplicate-key overwriting can observe the order, and there the
embedding lets the later list entry win, mirroring the overwriting writes).
-/

namespace JsonDiff

/-- Value is the in-memory form of a parsed JSON document node, as produced
by Go's `encoding/json` into an empty interface: JSON null is the nil
interface, numbers are float64 (kept exact as rationals here), arrays are
slices and objects are string-keyed maps (association lists here). -/
inductive Value where
  | null : Value
  | bool (b : Bool) : Value
  | num (q : Rat) : Value
  | str (s : String) : Value
  | arr (elems : List Value) : Value
  | obj (members : List (String × Value)) : Value
deriving Repr

/-- TypeTag is the image of Go's `reflect.TypeOf` on the six JSON value
shapes; `reflect.TypeOf(nil)` is the nil `reflect.Type`, modelled as `none`
by `typeOf` below. -/
inductive TypeTag where
  | boolT : TypeTag
  | numberT : TypeTag
  | stringT : TypeTag
  | arrayT : TypeTag
  | objectT : TypeTag
deriving Repr, DecidableEq

/-- typeOf models `reflect.TypeOf` on unmarshalled JSON values
(part_002:138). JSON null is the nil interface, whose reflect.Type is nil. -/
def typeOf : Value → Option TypeTag
  | .null => none
  | .bool _ => some .boolT
  | .num _ => some .numberT
  | .str _ => some .stringT
  | .arr _ => some .arrayT
  | .obj _ => some .objectT

/-- DiffType represents the type of difference between JSON objects
(part_002:14). -/
inductive DiffType where
  | ValueMismatch : DiffType
  | KeyOnlyInFirst : DiffType
  | KeyOnlyInSecond : DiffType
  | ArrayLength : DiffType
  | TypeMismatch : DiffType
deriving Repr, DecidableEq

/-- DVal is the payload type of the `Value1`/`Value2` fields of a `Diff`,
which in Go are `interface\x7b\x7d`: either a JSON value (Go's nil interface,
which is also JSON null, is `.value .null`), a `reflect.Type` (possibly the
nil type), or an `int` array length. -/
inductive DVal where
  | value (v : Value) : DVal
  | typeTag (t : Option TypeTag) : DVal
  | length (n : Nat) : DVal
deriving Repr

/-- Diff represents a difference between two JSON objects (part_002:44).
The Go field `Type` is a reserved word in Lean and is rendered `Kind`. -/
structure Diff where
  Path : String
  Kind : DiffType
  Value1 : DVal
  Value2 : DVal
deriving Repr

/-- CompareOptions contains options for JSON comparison: the full option
set of the regex/levenshtein-capable engine variant.  The Go maps
`RegexMatches : map[string]string` and `LevenshteinKeys : map[string]bool`
are modelled as association lists (`LevenshteinKeys` as its key set: the
source only ever tests key presence). -/
structure CompareOptions where
  IgnoreCase : Bool := false
  IgnoreCaseValues : Bool := false
  IgnoreNumericType : Bool := false
  IgnoreBooleanType : Bool := false
  IgnoreNullValues : Bool := false
  KeysOnly : Bool := false
  RegexMatches : List (String × String) := []
  LevenshteinKeys : List String := []
  LevenshteinThreshold : Int := 0

/-- isComplex checks if a value is a complex type, map or array
(valuecompare.go:15). -/
def isComplex : Value → Bool
  | .arr _ => true
  | .obj _ => true
  | _ => false

/-- strToLower models Go `strings.ToLower` as per-character simple case
folding over the string's characters; written as a list map so that it
evaluates by kernel reduction. -/
def strToLower (s : String) : String := ⟨s.data.map Char.toLower⟩

/-- boolCoerce extracts the boolean reading of a value used by
`compareBooleanValues` (valuecompare.go:43..69): a native bool directly, a
string through a case-insensitive match against "true"/"false", anything
else does not coerce. -/
def boolCoerce : Value → Option Bool
  | .bool b => some b
  | .str s =>
    if strToLower s == "true" then some true
    else if strToLower s == "false" then some false
    else none
  | _ => none

/-- compareBooleanValues compares two values as booleans, ignoring their
original types (valuecompare.go:26); returns (equal, ok).  The Go early
return when neither side is a bool or a string is subsumed by the two
coercions failing. -/
def compareBooleanValues (val1 val2 : Value) : Bool × Bool :=
  match boolCoerce val1, boolCoerce val2 with
  | some b1, some b2 => (b1 == b2, true)
  | _, _ => (false, false)

/-- digitsVal reads a list of decimal digit characters as a natural
number. -/
def digitsVal (cs : List Char) : Nat :=
  cs.foldl (fun a c => a * 10 + (c.toNat - 48)) 0

/-- parseSign strips an optional leading sign, returning the sign as an
integer unit. -/
def parseSign : List Char → Int × List Char
  | '+' :: r => (1, r)
  | '-' :: r => (-1, r)
  | r => (1, r)

/-- Modelled from the Go standard library `strconv.ParseFloat` (64-bit),
which is not part of this repository, restricted to plain decimal and
scientific notation: optional sign, integer digits, optional fraction,
optional exponent, with at least one mantissa digit and no trailing input.
Hexadecimal floats, "Inf"/"NaN" and digit-group underscores are not
modelled, and the value is kept exact as a rational instead of being
rounded to binary floating point (every literal in the claims is exactly
representable). -/
def parseDecimal (s : String) : Option Rat :=
  let p1 : Int × List Char := parseSign s.data
  let sign : Int := p1.1
  let cs1 : List Char := p1.2
  let ip : List Char := cs1.takeWhile Char.isDigit
  let cs2 : List Char := cs1.dropWhile Char.isDigit
  let fp : List Char := match cs2 with
    | '.' :: r => r.takeWhile Char.isDigit
    | _ => []
  let cs3 : List Char := match cs2 with
    | '.' :: r => r.dropWhile Char.isDigit
    | r => r
  if ip.isEmpty && fp.isEmpty then none
  else
    let mant : Int := sign * (digitsVal (ip ++ fp) : Int)
    let den : Nat := 10 ^ fp.length
    match cs3 with
    | [] => some (mkRat mant den)
    | c :: r =>
      if c == 'e' || c == 'E' then
        let p2 : Int × List Char := parseSign r
        let ed : List Char := p2.2.takeWhile Char.isDigit
        let rest : List Char := p2.2.dropWhile Char.isDigit
        if ed.isEmpty || !rest.isEmpty then none
        else if p2.1 ≥ 0 then some (mkRat (mant * (10 : Int) ^ digitsVal ed) den)
        else some (mkRat mant (den * 10 ^ digitsVal ed))
      else none

/-- convertToFloat64 attempts to convert a value to a number
(valuecompare.go:82): numbers convert directly (the Go cases float64,
float32, int, int64, int32 all collapse onto the single number shape of
unmarshalled JSON), strings are parsed, everything else fails. -/
def convertToFloat64 : Value → Option Rat
  | .num q => some q
  | .str s => parseDecimal s
  | _ => none

/-- compareNumericValues compares two values as numbers, ignoring their
original types (valuecompare.go:106). -/
def compareNumericValues (val1 val2 : Value) : Bool :=
  match convertToFloat64 val1, convertToFloat64 val2 with
  | some num1, some num2 => num1 == num2
  | _, _ => false

/-- matchesRegex checks if both values match the given regex pattern
(valuecompare.go:122).  The regex engine (Go's `regexp`, not part of this
repository) is abstracted as a `compile` function returning a matcher on
success; the Go `(bool, error)` result is rendered as `Option Bool` with
`none` for a compile error. -/
def matchesRegex (compile : String → Option (String → Bool))
    (val1 val2 : Value) (pattern : String) : Option Bool :=
  match val1, val2 with
  | .str s1, .str s2 =>
    match compile pattern with
    | none => none
    | some re => some (re s1 && re s2)
  | _, _ => some false

/-- Modelled from the `github.com/agnivade/levenshtein` library, which is
not part of this repository: the classic edit distance over unicode code
points, insertions, deletions and substitutions each costing 1, written as
the textbook recurrence. -/
def levenshtein : List Char → List Char → Nat
  | [], s2 => s2.length
  | s1, [] => s1.length
  | c1 :: r1, c2 :: r2 =>
    if c1 == c2 then levenshtein r1 r2
    else 1 + min (levenshtein r1 r2)
      (min (levenshtein (c1 :: r1) r2) (levenshtein r1 (c2 :: r2)))
termination_by s1 s2 => s1.length + s2.length
decreasing_by
  all_goals simp [List.length_cons]
  all_goals omega

/-- compareLevenshtein checks if two values are similar using Levenshtein
distance (valuecompare.go:143): both must be strings whose distance is
within the threshold. -/
def compareLevenshtein (val1 val2 : Value) (threshold : Int) : Bool :=
  match val1, val2 with
  | .str s1, .str s2 => decide ((levenshtein s1.data s2.data : Int) ≤ threshold)
  | _, _ => false

/-- lookupKey is a Go map read `m[key]` on an object modelled as an
association list with unique keys, returning the matching entry. -/
def lookupKey (m : List (String × Value)) (key : String) : Option (String × Value) :=
  m.find? (fun kv => kv.1 == key)

/-- memberKeysCovered checks that every key of `m2` is present in `m1`;
together with `deepEqualMembers` below this is Go `reflect.DeepEqual` on
maps (same key set, deeply equal values) for unique-keyed lists. -/
def memberKeysCovered (m2 m1 : List (String × Value)) : Bool :=
  m2.all (fun kv => (lookupKey m1 kv.1).isSome)

mutual
/-- deepEqual models Go `reflect.DeepEqual` (part_002:130 and the standard
library) on unmarshalled JSON values: structural equality, with slices
compared by length and elementwise and maps compared by key set and deeply
equal values per key. -/
def deepEqual : Value → Value → Bool
  | .null, .null => true
  | .bool b1, .bool b2 => b1 == b2
  | .num n1, .num n2 => n1 == n2
  | .str s1, .str s2 => s1 == s2
  | .arr a1, .arr a2 => a1.length == a2.length && deepEqualList a1 a2
  | .obj m1, .obj m2 => deepEqualMembers m1 m2 && memberKeysCovered m2 m1
  | _, _ => false

/-- deepEqualList compares two value lists elementwise over their common
prefix; `deepEqual` only consults it after checking the lengths agree. -/
def deepEqualList : List Value → List Value → Bool
  | [], _ => true
  | _ :: _, [] => true
  | v1 :: r1, v2 :: r2 => deepEqual v1 v2 && deepEqualList r1 r2

/-- deepEqualMembers checks that every entry of `m1` is matched in `m2` by
key with a deeply equal value. -/
def deepEqualMembers : List (String × Value) → List (String × Value) → Bool
  | [], _ => true
  | (k, v) :: rest, m2 =>
    (match lookupKey m2 k with
     | some kv2 => deepEqual v kv2.2
     | none => false) && deepEqualMembers rest m2
end

/-- stringsEqualFold is the guard of the IgnoreCaseValues rule
(part_002:71..77): both values are strings and `strings.EqualFold` holds.
The Go Unicode case folding is modelled as lowercase comparison. -/
def stringsEqualFold (val1 val2 : Value) : Bool :=
  match val1, val2 with
  | .str s1, .str s2 => strToLower s1 == strToLower s2
  | _, _ => false

/-- isNull tests for the nil interface, i.e. JSON null (part_002:82). -/
def isNull : Value → Bool
  | .null => true
  | _ => false

/-- lookupPattern is the Go map read `options.RegexMatches[path]`
(part_002:91). -/
def lookupPattern (rm : List (String × String)) (path : String) : Option String :=
  (rm.find? (fun kv => kv.1 == path)).map (fun kv => kv.2)

/-- compareValues compares two values with all the special handling
options (part_002:69); returns true if the values are considered equal
according to the options.  Each Go `if` block that returns true on success
and otherwise falls through to the next rule is one branch of the chain. -/
def compareValues (compile : String → Option (String → Bool))
    (val1 val2 : Value) (path : String) (options : CompareOptions) : Bool :=
  if options.IgnoreCaseValues && !options.KeysOnly && stringsEqualFold val1 val2 then
    true
  else if options.IgnoreNullValues && !options.KeysOnly && (isNull val1 || isNull val2) then
    true
  else if !options.KeysOnly && !options.RegexMatches.isEmpty &&
      (match lookupPattern options.RegexMatches path with
       | some pattern => matchesRegex compile val1 val2 pattern == some true
       | none => false) then
    true
  else if !options.KeysOnly && !options.LevenshteinKeys.isEmpty &&
      decide ((0 : Int) < options.LevenshteinThreshold) &&
      options.LevenshteinKeys.contains path &&
      compareLevenshtein val1 val2 options.LevenshteinThreshold then
    true
  else if options.IgnoreBooleanType && !options.KeysOnly &&
      (compareBooleanValues val1 val2).2 && (compareBooleanValues val1 val2).1 then
    true
  else if options.IgnoreNumericType && !options.KeysOnly &&
      compareNumericValues val1 val2 then
    true
  else
    deepEqual val1 val2

/-- foldLookup is the read of the case-insensitive lookup maps built at
part_002:170..183: iterating the object writes every entry under its
lowercased key, so for each lowercased key the entry written last wins.
The embedding fixes list order as the iteration order, hence the last
matching list entry is returned. -/
def foldLookup (m : List (String × Value)) (lkey : String) : Option (String × Value) :=
  m.reverse.find? (fun kv => strToLower kv.1 == lkey)

/-- sideLookup resolves one canonical key against one side of the object
comparison: the case-insensitive lookup maps when IgnoreCase is set
(part_002:207..223), a plain map read otherwise (part_002:225..228).
It returns the original key that owns the entry together with its value. -/
def sideLookup (ignoreCase : Bool) (m : List (String × Value)) (key : String) :
    Option (String × Value) :=
  if ignoreCase then foldLookup m key else lookupKey m key

/-- canonKeys lists the keys one side contributes to the key union
(part_002:158..192): lowercased when IgnoreCase is set, verbatim
otherwise. -/
def canonKeys (ignoreCase : Bool) (m : List (String × Value)) : List String :=
  if ignoreCase then m.map (fun kv => strToLower kv.1) else m.map (fun kv => kv.1)

/-- allKeysSorted is the key union of part_002:158..199: Go accumulates
the keys of both sides into a `map[string]bool` and sorts the key set with
`sort.Strings`; the embedding deduplicates the concatenation and sorts it,
producing the same sorted list of distinct keys. -/
def allKeysSorted (keys1 keys2 : List String) : List String :=
  ((keys1 ++ keys2).dedup).insertionSort (fun a b => a ≤ b)

/-- joinPath extends the parent path with a member key (part_002:231). -/
def joinPath (path key : String) : String :=
  if path == "" then key else path ++ "." ++ key

mutual
/-- findDifferencesWithOptions is the internal implementation that handles
all comparison options (part_002:134).  The type gate comes first; the Go
`switch obj1.(type)` becomes the match (the mixed constructor cases under
the catch-all are unreachable: the gate guarantees equal tags there). -/
def findDifferencesWithOptions (compile : String → Option (String → Bool))
    (obj1 obj2 : Value) (path : String) (options : CompareOptions) : List Diff :=
  if typeOf obj1 != typeOf obj2 then
    [⟨path, .TypeMismatch, .typeTag (typeOf obj1), .typeTag (typeOf obj2)⟩]
  else
    match obj1, obj2 with
    | .obj map1, .obj map2 =>
      compareObjKeys compile options map1 map2 path
        (allKeysSorted (canonKeys options.IgnoreCase map1) (canonKeys options.IgnoreCase map2))
    | .arr arr1, .arr arr2 =>
      (if arr1.length != arr2.length then
        [⟨path, .ArrayLength, .length arr1.length, .length arr2.length⟩]
      else []) ++ compareArrayElems compile options path 0 arr1 arr2
    | v1, v2 =>
      if !options.KeysOnly && !compareValues compile v1 v2 path options then
        [⟨path, .ValueMismatch, .value v1, .value v2⟩]
      else []
termination_by (sizeOf obj1, 0)
decreasing_by
  · apply Prod.Lex.left
    simp only [Value.obj.sizeOf_spec]
    omega
  · apply Prod.Lex.left
    simp only [Value.arr.sizeOf_spec]
    omega

/-- compareObjKeys is the per-key loop of the object case
(part_002:202..274), walking the sorted canonical key union. -/
def compareObjKeys (compile : String → Option (String → Bool))
    (options : CompareOptions) (map1 map2 : List (String × Value)) (path : String) :
    List String → List Diff
  | [] => []
  | key :: restKeys =>
    (match h1 : sideLookup options.IgnoreCase map1 key with
     | none =>
       let kv2? := sideLookup options.IgnoreCase map2 key
       let base := match kv2? with
         | some kv2 => kv2.1
         | none => key
       [⟨joinPath path base, .KeyOnlyInSecond, .value .null,
         .value (match kv2? with | some kv2 => kv2.2 | none => .null)⟩]
     | some kv1 =>
       match sideLookup options.IgnoreCase map2 key with
       | none => [⟨joinPath path kv1.1, .KeyOnlyInFirst, .value kv1.2, .value .null⟩]
       | some kv2 =>
         let newPath := joinPath path kv1.1
         if options.KeysOnly then
           if isComplex kv1.2 then
             findDifferencesWithOptions compile kv1.2 kv2.2 newPath options
           else []
         else if !compareValues compile kv1.2 kv2.2 newPath options then
           if isComplex kv1.2 then
             findDifferencesWithOptions compile kv1.2 kv2.2 newPath options
           else [⟨newPath, .ValueMismatch, .value kv1.2, .value kv2.2⟩]
         else []) ++ compareObjKeys compile options map1 map2 path restKeys
termination_by keys => (sizeOf map1, keys.length + 1)
decreasing_by
  · apply Prod.Lex.left
    have hmem : kv1 ∈ map1 := by
      unfold sideLookup foldLookup lookupKey at h1
      split at h1
      · exact List.mem_reverse.mp (List.mem_of_find?_eq_some h1)
      · exact List.mem_of_find?_eq_some h1
    have hsz : sizeOf kv1 < sizeOf map1 := List.sizeOf_lt_of_mem hmem
    obtain ⟨k, v⟩ := kv1
    simp only [Prod.mk.sizeOf_spec] at hsz
    dsimp only
    omega
  · apply Prod.Lex.left
    have hmem : kv1 ∈ map1 := by
      unfold sideLookup foldLookup lookupKey at h1
      split at h1
      · exact List.mem_reverse.mp (List.mem_of_find?_eq_some h1)
      · exact List.mem_of_find?_eq_some h1
    have hsz : sizeOf kv1 < sizeOf map1 := List.sizeOf_lt_of_mem hmem
    obtain ⟨k, v⟩ := kv1
    simp only [Prod.mk.sizeOf_spec] at hsz
    dsimp only
    omega
  · apply Prod.Lex.right
    simp only [List.length_cons]
    omega

/-- compareArrayElems is the per-index loop of the array case
(part_002:297..325) over the overlapping prefix of the two arrays. -/
def compareArrayElems (compile : String → Option (String → Bool))
    (options : CompareOptions) (path : String) :
    Nat → List Value → List Value → List Diff
  | _, [], _ => []
  | _, _ :: _, [] => []
  | i, val1 :: rest1, val2 :: rest2 =>
    (let newPath := path ++ "[" ++ toString i ++ "]"
     if options.KeysOnly then
       if isComplex val1 then
         findDifferencesWithOptions compile val1 val2 newPath options
       else []
     else if !compareValues compile val1 val2 newPath options then
       if isComplex val1 then
         findDifferencesWithOptions compile val1 val2 newPath options
       else [⟨newPath, .ValueMismatch, .value val1, .value val2⟩]
     else []) ++ compareArrayElems compile options path (i + 1) rest1 rest2
termination_by i arr1 arr2 => (sizeOf arr1, 0)
decreasing_by
  · apply Prod.Lex.left
    simp only [List.cons.sizeOf_spec]
    omega
  · apply Prod.Lex.left
    simp only [List.cons.sizeOf_spec]
    omega
  · apply Prod.Lex.left
    simp only [List.cons.sizeOf_spec]
    omega
end

/-- objKeyStep is the body of the per-key loop (part_002:202..274) for one
canonical key, written out as its own function so that one unfolding of
`compareObjKeys` is one loop iteration. -/
def objKeyStep (compile : String → Option (String → Bool))
    (options : CompareOptions) (map1 map2 : List (String × Value)) (path : String)
    (key : String) : List Diff :=
  match sideLookup options.IgnoreCase map1 key with
  | none =>
    let kv2? := sideLookup options.IgnoreCase map2 key
    let base := match kv2? with
      | some kv2 => kv2.1
      | none => key
    [⟨joinPath path base, .KeyOnlyInSecond, .value .null,
      .value (match kv2? with | some kv2 => kv2.2 | none => .null)⟩]
  | some kv1 =>
    match sideLookup options.IgnoreCase map2 key with
    | none => [⟨joinPath path kv1.1, .KeyOnlyInFirst, .value kv1.2, .value .null⟩]
    | some kv2 =>
      if options.KeysOnly then
        if isComplex kv1.2 then
          findDifferencesWithOptions compile kv1.2 kv2.2 (joinPath path kv1.1) options
        else []
      else if !compareValues compile kv1.2 kv2.2 (joinPath path kv1.1) options then
        if isComplex kv1.2 then
          findDifferencesWithOptions compile kv1.2 kv2.2 (joinPath path kv1.1) options
        else [⟨joinPath path kv1.1, .ValueMismatch, .value kv1.2, .value kv2.2⟩]
      else []

/-- arrElemStep is the body of the per-index loop (part_002:297..325) for
one array index; the Go loop's newPath variable is written out as the
bracket-indexed path. -/
def arrElemStep (compile : String → Option (String → Bool))
    (options : CompareOptions) (path : String) (i : Nat) (val1 val2 : Value) : List Diff :=
  if options.KeysOnly then
    if isComplex val1 then
      findDifferencesWithOptions compile val1 val2 (path ++ "[" ++ toString i ++ "]") options
    else []
  else if !compareValues compile val1 val2 (path ++ "[" ++ toString i ++ "]") options then
    if isComplex val1 then
      findDifferencesWithOptions compile val1 val2 (path ++ "[" ++ toString i ++ "]") options
    else [⟨path ++ "[" ++ toString i ++ "]", .ValueMismatch, .value val1, .value val2⟩]
  else []

/-- Modelled from the spec: the equivalence evaluator of spec section 4.2,
written directly from the spec's seven-rule list, in the spec's fixed
precedence order -- value-case folding, null wildcard, path-scoped regex,
path-scoped fuzzy match, boolean coercion, numeric coercion, then deep
structural equality -- short-circuiting on the first rule that declares
the pair equal.  Rule 4 carries the spec's guard `fuzzyThreshold >= 0`
(the source guards the rule with `LevenshteinThreshold > 0` instead). -/
def specEqual (compile : String → Option (String → Bool))
    (v1 v2 : Value) (path : String) (o : CompareOptions) : Bool :=
  if o.IgnoreCaseValues && stringsEqualFold v1 v2 then true
  else if o.IgnoreNullValues && (isNull v1 || isNull v2) then true
  else if (match lookupPattern o.RegexMatches path, v1, v2 with
           | some pat, .str s1, .str s2 =>
             match compile pat with
             | some re => re s1 && re s2
             | none => false
           | _, _, _ => false) then true
  else if (match v1, v2 with
           | .str s1, .str s2 =>
             o.LevenshteinKeys.contains path &&
               decide ((0 : Int) ≤ o.LevenshteinThreshold) &&
               decide ((levenshtein s1.data s2.data : Int) ≤ o.LevenshteinThreshold)
           | _, _ => false) then true
  else if o.IgnoreBooleanType &&
      (match boolCoerce v1, boolCoerce v2 with
       | some b1, some b2 => b1 == b2
       | _, _ => false) then true
  else if o.IgnoreNumericType &&
      (match convertToFloat64 v1, convertToFloat64 v2 with
       | some q1, some q2 => q1 == q2
       | _, _ => false) then true
  else deepEqual v1 v2

/-- foldDedup keeps, for each lowercased key, only the entry that wins the
overwriting writes building the case-insensitive lookup maps
(part_002:171..183), i.e. the last entry in iteration order whose folded
key is that lowercased key; relative order of the survivors is kept. -/
def foldDedup : List (String × Value) → List (String × Value)
  | [] => []
  | kv :: rest =>
    if (rest.map (fun p => strToLower p.1)).contains (strToLower kv.1) then foldDedup rest
    else kv :: foldDedup rest

/-- eraseKey removes from a regex configuration every entry registered for
the given path; used to state that an entry whose pattern does not compile
behaves as if it were absent. -/
def eraseKey (rm : List (String × String)) (q : String) : List (String × String) :=
  rm.filter (fun kv => kv.1 != q)

/-- reportsAt checks whether a diff list contains a diff of the given kind
at the given path. -/
def reportsAt (ds : List Diff) (kind : DiffType) (path : String) : Bool :=
  ds.any (fun d => d.Kind == kind && d.Path == path)

/-- pathExtends q p holds when the path q is p itself or a descendant of
p in the dot/bracket addressing (p is a string prefix of q). -/
def pathExtends (q p : String) : Prop :=
  p.data <+: q.data

/-- noRegex is a regex engine on which every pattern fails to compile. -/
def noRegex : String → Option (String → Bool) := fun _ => none

/-- digitMatcher is a sample compiled matcher: accepts strings made of
decimal digits only. -/
def digitMatcher : String → Bool := fun s => !s.isEmpty && s.data.all Char.isDigit

/-- digitsOnlyEngine is a regex engine that compiles exactly the pattern
"[0-9]+", to `digitMatcher`. -/
def digitsOnlyEngine : String → Option (String → Bool) :=
  fun p => if p == "[0-9]+" then some digitMatcher else none

/-- FindDifferences recursively compares two JSON objects and returns a
list of differences (part_002:53); it packs the flag list into
`CompareOptions` and delegates. -/
def FindDifferences (compile : String → Option (String → Bool))
    (obj1 obj2 : Value) (path : String)
    (ignoreCase ignoreCaseValues ignoreNumericType ignoreBooleanType
      ignoreNullValues keysOnly : Bool)
    (regexMatches : List (String × String)) (levenshteinKeys : List String)
    (levenshteinThreshold : Int) : List Diff :=
  findDifferencesWithOptions compile obj1 obj2 path
    ⟨ignoreCase, ignoreCaseValues, ignoreNumericType, ignoreBooleanType,
      ignoreNullValues, keysOnly, regexMatches, levenshteinKeys, levenshteinThreshold⟩

/-! Step equations: one lemma per branch of the recursive engine, so that
general proofs can proceed one loop iteration or one node at a time. -/

theorem compareObjKeys_nil (compile : String → Option (String → Bool))
    (options : CompareOptions) (map1 map2 : List (String × Value)) (path : String) :
    compareObjKeys compile options map1 map2 path [] = [] := by
  unfold compareObjKeys
  rfl

theorem compareObjKeys_cons (compile : String → Option (String → Bool))
    (options : CompareOptions) (map1 map2 : List (String × Value)) (path key : String)
    (restKeys : List String) :
    compareObjKeys compile options map1 map2 path (key :: restKeys) =
      objKeyStep compile options map1 map2 path key ++
        compareObjKeys compile options map1 map2 path restKeys := by
  conv_lhs => rw [compareObjKeys]
  congr 1
  split <;> simp [objKeyStep, *]

theorem compareArrayElems_nil_left (compile : String → Option (String → Bool))
    (options : CompareOptions) (path : String) (i : Nat) (l : List Value) :
    compareArrayElems compile options path i [] l = [] := by
  unfold compareArrayElems
  rfl

theorem compareArrayElems_nil_right (compile : String → Option (String → Bool))
    (options : CompareOptions) (path : String) (i : Nat) (v : Value) (r : List Value) :
    compareArrayElems compile options path i (v :: r) [] = [] := by
  unfold compareArrayElems
  rfl

theorem compareArrayElems_cons (compile : String → Option (String → Bool))
    (options : CompareOptions) (path : String) (i : Nat) (val1 val2 : Value)
    (rest1 rest2 : List Value) :
    compareArrayElems compile options path i (val1 :: rest1) (val2 :: rest2) =
      arrElemStep compile options path i val1 val2 ++
        compareArrayElems compile options path (i + 1) rest1 rest2 := by
  conv_lhs => rw [compareArrayElems]
  rfl

theorem findDiff_typeGate (compile : String → Option (String → Bool))
    (v1 v2 : Value) (path : String) (options : CompareOptions)
    (h : typeOf v1 ≠ typeOf v2) :
    findDifferencesWithOptions compile v1 v2 path options =
      [⟨path, .TypeMismatch, .typeTag (typeOf v1), .typeTag (typeOf v2)⟩] := by
  unfold findDifferencesWithOptions
  simp [h]

theorem findDiff_obj (compile : String → Option (String → Bool))
    (m1 m2 : List (String × Value)) (path : String) (options : CompareOptions) :
    findDifferencesWithOptions compile (.obj m1) (.obj m2) path options =
      compareObjKeys compile options m1 m2 path
        (allKeysSorted (canonKeys options.IgnoreCase m1) (canonKeys options.IgnoreCase m2)) := by
  unfold findDifferencesWithOptions
  simp [typeOf]

theorem findDiff_arr (compile : String → Option (String → Bool))
    (a1 a2 : List Value) (path : String) (options : CompareOptions) :
    findDifferencesWithOptions compile (.arr a1) (.arr a2) path options =
      (if a1.length != a2.length then
        [⟨path, .ArrayLength, .length a1.length, .length a2.length⟩]
      else []) ++ compareArrayElems compile options path 0 a1 a2 := by
  unfold findDifferencesWithOptions
  simp [typeOf]

theorem findDiff_null (compile : String → Option (String → Bool))
    (path : String) (options : CompareOptions) :
    findDifferencesWithOptions compile .null .null path options =
      (if !options.KeysOnly && !compareValues compile .null .null path options then
        [⟨path, .ValueMismatch, .value .null, .value .null⟩]
      else []) := by
  unfold findDifferencesWithOptions
  simp [typeOf]

theorem findDiff_bool (compile : String → Option (String → Bool))
    (b1 b2 : Bool) (path : String) (options : CompareOptions) :
    findDifferencesWithOptions compile (.bool b1) (.bool b2) path options =
      (if !options.KeysOnly && !compareValues compile (.bool b1) (.bool b2) path options then
        [⟨path, .ValueMismatch, .value (.bool b1), .value (.bool b2)⟩]
      else []) := by
  unfold findDifferencesWithOptions
  simp [typeOf]

theorem findDiff_num (compile : String → Option (String → Bool))
    (q1 q2 : Rat) (path : String) (options : CompareOptions) :
    findDifferencesWithOptions compile (.num q1) (.num q2) path options =
      (if !options.KeysOnly && !compareValues compile (.num q1) (.num q2) path options then
        [⟨path, .ValueMismatch, .value (.num q1), .value (.num q2)⟩]
      else []) := by
  unfold findDifferencesWithOptions
  simp [typeOf]

theorem findDiff_str (compile : String → Option (String → Bool))
    (s1 s2 : String) (path : String) (options : CompareOptions) :
    findDifferencesWithOptions compile (.str s1) (.str s2) path options =
      (if !options.KeysOnly && !compareValues compile (.str s1) (.str s2) path options then
        [⟨path, .ValueMismatch, .value (.str s1), .value (.str s2)⟩]
      else []) := by
  unfold findDifferencesWithOptions
  simp [typeOf]

/-! General-purpose helper lemmas. -/

theorem value_strong_induction (motive : Value → Prop)
    (step : ∀ v1, (∀ w, sizeOf w < sizeOf v1 → motive w) → motive v1) :
    ∀ v1, motive v1 := by
  intro v1
  have key : ∀ n v, sizeOf v ≤ n → motive v := by
    intro n
    induction n with
    | zero =>
      intro v h
      exact step v (fun w hw => absurd (Nat.lt_of_lt_of_le hw h) (Nat.not_lt_zero _))
    | succ n ih =>
      intro v h
      exact step v (fun w hw => ih w (by omega))
  exact key (sizeOf v1) v1 (Nat.le_refl _)

theorem sizeOf_snd_lt_obj (kv : String × Value) (m : List (String × Value))
    (h : kv ∈ m) : sizeOf kv.2 < sizeOf (Value.obj m) := by
  obtain ⟨k, v⟩ := kv
  show sizeOf v < sizeOf (Value.obj m)
  have hlt := List.sizeOf_lt_of_mem h
  simp only [Prod.mk.sizeOf_spec] at hlt
  simp only [Value.obj.sizeOf_spec]
  omega

theorem sizeOf_mem_lt_arr (v : Value) (a : List Value) (h : v ∈ a) :
    sizeOf v < sizeOf (Value.arr a) := by
  have hlt := List.sizeOf_lt_of_mem h
  simp only [Value.arr.sizeOf_spec]
  omega

theorem sideLookup_mem (ic : Bool) (m : List (String × Value)) (key : String)
    (kv : String × Value) (h : sideLookup ic m key = some kv) : kv ∈ m := by
  unfold sideLookup foldLookup lookupKey at h
  split at h
  · exact List.mem_reverse.mp (List.mem_of_find?_eq_some h)
  · exact List.mem_of_find?_eq_some h

theorem levenshtein_eq_zero_iff :
    ∀ xs ys : List Char, levenshtein xs ys = 0 ↔ xs = ys := by
  intro xs ys
  induction xs, ys using levenshtein.induct with
  | case1 ys =>
    rw [levenshtein]
    simp [eq_comm, List.length_eq_zero]
  | case2 xs h =>
    rw [levenshtein]
    simp [List.length_eq_zero]
    exact h
  | case3 c1 r1 c2 r2 heq ih =>
    have hc : c1 = c2 := by simpa using heq
    rw [levenshtein]
    simp only [heq, if_true]
    rw [ih]
    subst hc
    simp
  | case4 c1 r1 c2 r2 hne ih1 ih2 ih3 =>
    rw [levenshtein]
    simp only [hne, if_false]
    constructor
    · intro h
      exact absurd h (by simp [Nat.add_eq_zero])
    · intro h
      injection h with h1 h2
      exact absurd (by rw [h1]; exact beq_self_eq_true c2) hne

/-! Path-prefix helpers: every diff reported below a node carries a path
that extends the node's path. -/

theorem pathExtends_trans {r q p : String} (h1 : pathExtends q p)
    (h2 : pathExtends r q) : pathExtends r p :=
  List.IsPrefix.trans h1 h2

theorem pathExtends_self (p : String) : pathExtends p p :=
  List.prefix_rfl

theorem joinPath_pathExtends (path key : String) :
    pathExtends (joinPath path key) path := by
  unfold pathExtends joinPath
  split
  · next hp =>
    have hp0 : path = "" := eq_of_beq hp
    rw [hp0]
    exact List.nil_prefix
  · rw [String.data_append, String.data_append]
    exact (List.prefix_append path.data _).trans (List.prefix_append _ _)

theorem append_pathExtends (path s : String) :
    pathExtends (path ++ s) path := by
  unfold pathExtends
  rw [String.data_append]
  exact List.prefix_append _ _

theorem append3_pathExtends (path a b c : String) :
    pathExtends (path ++ a ++ b ++ c) path := by
  unfold pathExtends
  rw [String.data_append, String.data_append, String.data_append]
  exact ((List.prefix_append _ _).trans (List.prefix_append _ _)).trans
    (List.prefix_append _ _)

theorem prefix_objKeyStep (compile : String → Option (String → Bool))
    (options : CompareOptions) (map1 map2 : List (String × Value)) (path key : String)
    (hrec : ∀ kv : String × Value, kv ∈ map1 →
      ∀ v2 p d, d ∈ findDifferencesWithOptions compile kv.2 v2 p options →
        pathExtends d.Path p) :
    ∀ d ∈ objKeyStep compile options map1 map2 path key, pathExtends d.Path path := by
  intro d hd
  unfold objKeyStep at hd
  split at hd
  · simp only [List.mem_singleton] at hd
    subst hd
    exact joinPath_pathExtends _ _
  · next kv1 h1 =>
    split at hd
    · simp only [List.mem_singleton] at hd
      subst hd
      exact joinPath_pathExtends _ _
    · next kv2 _ =>
      have hmem := sideLookup_mem _ _ _ _ h1
      split at hd
      · split at hd
        · exact pathExtends_trans (joinPath_pathExtends _ _)
            (hrec kv1 hmem kv2.2 _ d hd)
        · exact absurd hd (List.not_mem_nil d)
      · split at hd
        · split at hd
          · exact pathExtends_trans (joinPath_pathExtends _ _)
              (hrec kv1 hmem kv2.2 _ d hd)
          · simp only [List.mem_singleton] at hd
            subst hd
            exact joinPath_pathExtends _ _
        · exact absurd hd (List.not_mem_nil d)

theorem prefix_objKeys (compile : String → Option (String → Bool))
    (options : CompareOptions) (map1 map2 : List (String × Value)) (path : String)
    (hrec : ∀ kv : String × Value, kv ∈ map1 →
      ∀ v2 p d, d ∈ findDifferencesWithOptions compile kv.2 v2 p options →
        pathExtends d.Path p) :
    ∀ keys d, d ∈ compareObjKeys compile options map1 map2 path keys →
      pathExtends d.Path path := by
  intro keys
  induction keys with
  | nil =>
    intro d hd
    rw [compareObjKeys_nil] at hd
    exact absurd hd (List.not_mem_nil d)
  | cons key rest ih =>
    intro d hd
    rw [compareObjKeys_cons] at hd
    rcases List.mem_append.mp hd with hd | hd
    · exact prefix_objKeyStep compile options map1 map2 path key hrec d hd
    · exact ih d hd

theorem prefix_arrElems (compile : String → Option (String → Bool))
    (options : CompareOptions) (path : String) :
    ∀ a1 : List Value,
      (∀ w ∈ a1, ∀ v2 p d,
        d ∈ findDifferencesWithOptions compile w v2 p options → pathExtends d.Path p) →
      ∀ a2 i d, d ∈ compareArrayElems compile options path i a1 a2 →
        pathExtends d.Path path := by
  intro a1
  induction a1 with
  | nil =>
    intro _ a2 i d hd
    rw [compareArrayElems_nil_left] at hd
    exact absurd hd (List.not_mem_nil d)
  | cons v1 r1 ih =>
    intro hrec a2 i d hd
    cases a2 with
    | nil =>
      rw [compareArrayElems_nil_right] at hd
      exact absurd hd (List.not_mem_nil d)
    | cons v2 r2 =>
      rw [compareArrayElems_cons] at hd
      rcases List.mem_append.mp hd with hd | hd
      · unfold arrElemStep at hd
        split at hd
        · split at hd
          · exact pathExtends_trans (append3_pathExtends path "[" (toString i) "]")
              (hrec v1 (List.mem_cons_self v1 r1) v2 _ d hd)
          · exact absurd hd (List.not_mem_nil d)
        · split at hd
          · split at hd
            · exact pathExtends_trans (append3_pathExtends path "[" (toString i) "]")
                (hrec v1 (List.mem_cons_self v1 r1) v2 _ d hd)
            · simp only [List.mem_singleton] at hd
              subst hd
              exact append3_pathExtends path "[" (toString i) "]"
          · exact absurd hd (List.not_mem_nil d)
      · exact ih (fun w hw => hrec w (List.mem_cons_of_mem v1 hw)) r2 (i + 1) d hd

theorem prefix_main :
    ∀ v1 : Value, ∀ compile options v2 path d,
      d ∈ findDifferencesWithOptions compile v1 v2 path options →
        pathExtends d.Path path := by
  intro v1
  induction v1 using value_strong_induction with
  | step v1 ih =>
    intro compile options v2 path d hd
    by_cases htag : typeOf v1 = typeOf v2
    · cases v1 with
      | null =>
        cases v2 <;> simp [typeOf] at htag
        rw [findDiff_null] at hd
        split at hd
        · simp only [List.mem_singleton] at hd
          subst hd
          exact pathExtends_self path
        · exact absurd hd (List.not_mem_nil d)
      | bool b1 =>
        cases v2 <;> simp [typeOf] at htag
        rw [findDiff_bool] at hd
        split at hd
        · simp only [List.mem_singleton] at hd
          subst hd
          exact pathExtends_self path
        · exact absurd hd (List.not_mem_nil d)
      | num q1 =>
        cases v2 <;> simp [typeOf] at htag
        rw [findDiff_num] at hd
        split at hd
        · simp only [List.mem_singleton] at hd
          subst hd
          exact pathExtends_self path
        · exact absurd hd (List.not_mem_nil d)
      | str s1 =>
        cases v2 <;> simp [typeOf] at htag
        rw [findDiff_str] at hd
        split at hd
        · simp only [List.mem_singleton] at hd
          subst hd
          exact pathExtends_self path
        · exact absurd hd (List.not_mem_nil d)
      | arr a1 =>
        cases v2 <;> simp [typeOf] at htag
        next a2 =>
        rw [findDiff_arr] at hd
        rcases List.mem_append.mp hd with hd | hd
        · split at hd
          · simp only [List.mem_singleton] at hd
            subst hd
            exact pathExtends_self path
          · exact absurd hd (List.not_mem_nil d)
        · exact prefix_arrElems compile options path a1
            (fun w hw v2' p' d' hd' =>
              ih w (sizeOf_mem_lt_arr w a1 hw) compile options v2' p' d' hd')
            a2 0 d hd
      | obj m1 =>
        cases v2 <;> simp [typeOf] at htag
        next m2 =>
        rw [findDiff_obj] at hd
        exact prefix_objKeys compile options m1 m2 path
          (fun kv hkv v2' p' d' hd' =>
            ih kv.2 (sizeOf_snd_lt_obj kv m1 hkv) compile options v2' p' d' hd')
          _ d hd
    · rw [findDiff_typeGate _ _ _ _ _ htag] at hd
      simp only [List.mem_singleton] at hd
      subst hd
      exact pathExtends_self path

/-! Structure-only mode never emits a ValueMismatch. -/

theorem noVM_objKeyStep (compile : String → Option (String → Bool))
    (options : CompareOptions) (map1 map2 : List (String × Value)) (path key : String)
    (hKO : options.KeysOnly = true)
    (hrec : ∀ kv : String × Value, kv ∈ map1 → ∀ v2 p d,
      d ∈ findDifferencesWithOptions compile kv.2 v2 p options →
        d.Kind ≠ DiffType.ValueMismatch) :
    ∀ d ∈ objKeyStep compile options map1 map2 path key,
      d.Kind ≠ DiffType.ValueMismatch := by
  intro d hd
  unfold objKeyStep at hd
  split at hd
  · simp only [List.mem_singleton] at hd
    subst hd
    simp
  · next kv1 h1 =>
    split at hd
    · simp only [List.mem_singleton] at hd
      subst hd
      simp
    · next kv2 _ =>
      split at hd
      · split at hd
        · exact hrec kv1 (sideLookup_mem _ _ _ _ h1) kv2.2 _ d hd
        · exact absurd hd (List.not_mem_nil d)
      · next hKO2 => exact absurd hKO hKO2

theorem noVM_objKeys (compile : String → Option (String → Bool))
    (options : CompareOptions) (map1 map2 : List (String × Value)) (path : String)
    (hKO : options.KeysOnly = true)
    (hrec : ∀ kv : String × Value, kv ∈ map1 → ∀ v2 p d,
      d ∈ findDifferencesWithOptions compile kv.2 v2 p options →
        d.Kind ≠ DiffType.ValueMismatch) :
    ∀ keys d, d ∈ compareObjKeys compile options map1 map2 path keys →
      d.Kind ≠ DiffType.ValueMismatch := by
  intro keys
  induction keys with
  | nil =>
    intro d hd
    rw [compareObjKeys_nil] at hd
    exact absurd hd (List.not_mem_nil d)
  | cons key rest ih =>
    intro d hd
    rw [compareObjKeys_cons] at hd
    rcases List.mem_append.mp hd with hd | hd
    · exact noVM_objKeyStep compile options map1 map2 path key hKO hrec d hd
    · exact ih d hd

theorem noVM_arrElems (compile : String → Option (String → Bool))
    (options : CompareOptions) (path : String) (hKO : options.KeysOnly = true) :
    ∀ a1 : List Value,
      (∀ w ∈ a1, ∀ v2 p d,
        d ∈ findDifferencesWithOptions compile w v2 p options →
          d.Kind ≠ DiffType.ValueMismatch) →
      ∀ a2 i d, d ∈ compareArrayElems compile options path i a1 a2 →
        d.Kind ≠ DiffType.ValueMismatch := by
  intro a1
  induction a1 with
  | nil =>
    intro _ a2 i d hd
    rw [compareArrayElems_nil_left] at hd
    exact absurd hd (List.not_mem_nil d)
  | cons v1 r1 ih =>
    intro hrec a2 i d hd
    cases a2 with
    | nil =>
      rw [compareArrayElems_nil_right] at hd
      exact absurd hd (List.not_mem_nil d)
    | cons v2 r2 =>
      rw [compareArrayElems_cons] at hd
      rcases List.mem_append.mp hd with hd | hd
      · unfold arrElemStep at hd
        split at hd
        · split at hd
          · exact hrec v1 (List.mem_cons_self v1 r1) v2 _ d hd
          · exact absurd hd (List.not_mem_nil d)
        · next hKO2 => exact absurd hKO hKO2
      · exact ih (fun w hw => hrec w (List.mem_cons_of_mem v1 hw)) r2 (i + 1) d hd

theorem noVM_main :
    ∀ v1 : Value, ∀ compile options v2 path d,
      options.KeysOnly = true →
      d ∈ findDifferencesWithOptions compile v1 v2 path options →
        d.Kind ≠ DiffType.ValueMismatch := by
  intro v1
  induction v1 using value_strong_induction with
  | step v1 ih =>
    intro compile options v2 path d hKO hd
    by_cases htag : typeOf v1 = typeOf v2
    · cases v1 with
      | null =>
        cases v2 <;> simp [typeOf] at htag
        rw [findDiff_null] at hd
        simp [hKO] at hd
      | bool b1 =>
        cases v2 <;> simp [typeOf] at htag
        rw [findDiff_bool] at hd
        simp [hKO] at hd
      | num q1 =>
        cases v2 <;> simp [typeOf] at htag
        rw [findDiff_num] at hd
        simp [hKO] at hd
      | str s1 =>
        cases v2 <;> simp [typeOf] at htag
        rw [findDiff_str] at hd
        simp [hKO] at hd
      | arr a1 =>
        cases v2 <;> simp [typeOf] at htag
        next a2 =>
        rw [findDiff_arr] at hd
        rcases List.mem_append.mp hd with hd | hd
        · split at hd
          · simp only [List.mem_singleton] at hd
            subst hd
            simp
          · exact absurd hd (List.not_mem_nil d)
        · exact noVM_arrElems compile options path hKO a1
            (fun w hw v2' p' d' hd' =>
              ih w (sizeOf_mem_lt_arr w a1 hw) compile options v2' p' d' hKO hd')
            a2 0 d hd
      | obj m1 =>
        cases v2 <;> simp [typeOf] at htag
        next m2 =>
        rw [findDiff_obj] at hd
        exact noVM_objKeys compile options m1 m2 path hKO
          (fun kv hkv v2' p' d' hd' =>
            ih kv.2 (sizeOf_snd_lt_obj kv m1 hkv) compile options v2' p' d' hKO hd')
          _ d hd
    · rw [findDiff_typeGate _ _ _ _ _ htag] at hd
      simp only [List.mem_singleton] at hd
      subst hd
      simp

/-! Invalid regex patterns: the rule behaves as if the entry were absent. -/

theorem find?_filter_ne (l : List (String × String)) (q p : String) (h : p ≠ q) :
    (l.filter (fun kv => kv.1 != q)).find? (fun kv => kv.1 == p) =
      l.find? (fun kv => kv.1 == p) := by
  induction l with
  | nil => rfl
  | cons kv rest ih =>
    by_cases hk : kv.1 = q
    · have hfilter : (kv.1 != q) = false := by simp [hk]
      have hfind : (kv.1 == p) = false := by simp [hk, Ne.symm h]
      simp only [List.filter_cons, hfilter, Bool.false_eq_true, if_false,
        List.find?_cons, hfind]
      exact ih
    · have hfilter : (kv.1 != q) = true := by simp [hk]
      simp only [List.filter_cons, hfilter, if_true, List.find?_cons]
      cases hp : kv.1 == p
      · exact ih
      · rfl

theorem lookupPattern_eraseKey_self (rm : List (String × String)) (q : String) :
    lookupPattern (eraseKey rm q) q = none := by
  unfold lookupPattern eraseKey
  have h : (rm.filter (fun kv => kv.1 != q)).find? (fun kv => kv.1 == q) = none := by
    rw [List.find?_eq_none]
    intro x hx
    have hne := List.of_mem_filter hx
    simp only [bne_iff_ne, ne_eq, decide_not] at hne
    simp [hne]
  rw [h]
  rfl

theorem lookupPattern_eraseKey_ne (rm : List (String × String)) (q p : String)
    (h : p ≠ q) : lookupPattern (eraseKey rm q) p = lookupPattern rm p := by
  unfold lookupPattern eraseKey
  rw [find?_filter_ne rm q p h]

theorem lookupPattern_nonempty (rm : List (String × String)) (p x : String)
    (h : lookupPattern rm p = some x) : rm.isEmpty = false := by
  cases rm with
  | nil => exact absurd h (by simp [lookupPattern])
  | cons kv rest => rfl

theorem compareValues_eraseInvalid (compile : String → Option (String → Bool))
    (o : CompareOptions) (q pat : String)
    (hq : lookupPattern o.RegexMatches q = some pat) (hbad : compile pat = none) :
    ∀ v1 v2 path, compareValues compile v1 v2 path o =
      compareValues compile v1 v2 path
        { o with RegexMatches := eraseKey o.RegexMatches q } := by
  intro v1 v2 path
  unfold compareValues
  dsimp only
  have h3 : (!o.KeysOnly && !(eraseKey o.RegexMatches q).isEmpty &&
      (match lookupPattern (eraseKey o.RegexMatches q) path with
       | some pattern => matchesRegex compile v1 v2 pattern == some true
       | none => false)) =
      (!o.KeysOnly && !o.RegexMatches.isEmpty &&
      (match lookupPattern o.RegexMatches path with
       | some pattern => matchesRegex compile v1 v2 pattern == some true
       | none => false)) := by
    by_cases hp : path = q
    · subst hp
      rw [lookupPattern_eraseKey_self, hq]
      have hm : (matchesRegex compile v1 v2 pat == some true) = false := by
        cases v1 <;> cases v2 <;> simp [matchesRegex, hbad]
      simp [hm]
    · rw [lookupPattern_eraseKey_ne _ _ _ hp]
      rcases hl : lookupPattern o.RegexMatches path with _ | pat'
      · simp
      · have h1 : o.RegexMatches.isEmpty = false := lookupPattern_nonempty _ _ _ hl
        have h2 : (eraseKey o.RegexMatches q).isEmpty = false := by
          apply lookupPattern_nonempty _ path pat'
          rw [lookupPattern_eraseKey_ne _ _ _ hp, hl]
        rw [h1, h2]
  rw [h3]

/-! Output congruence: two policies agreeing on IgnoreCase, KeysOnly and
on the leaf evaluator produce identical diff sequences. -/

theorem objKeyStep_congr (compile : String → Option (String → Bool))
    (o o' : CompareOptions) (map1 map2 : List (String × Value)) (path key : String)
    (hIC : o.IgnoreCase = o'.IgnoreCase) (hKO : o.KeysOnly = o'.KeysOnly)
    (hcv : ∀ v1 v2 p, compareValues compile v1 v2 p o = compareValues compile v1 v2 p o')
    (hrec : ∀ kv : String × Value, kv ∈ map1 → ∀ v2 p,
      findDifferencesWithOptions compile kv.2 v2 p o =
        findDifferencesWithOptions compile kv.2 v2 p o') :
    objKeyStep compile o map1 map2 path key =
      objKeyStep compile o' map1 map2 path key := by
  unfold objKeyStep
  rw [hIC]
  rcases h1 : sideLookup o'.IgnoreCase map1 key with _ | kv1
  · simp only [h1]
  · simp only [h1]
    rcases h2 : sideLookup o'.IgnoreCase map2 key with _ | kv2
    · simp only [h2]
    · simp only [h2]
      have hmem : kv1 ∈ map1 := sideLookup_mem _ _ _ _ h1
      simp only [hKO, hcv, hrec kv1 hmem]

theorem compareObjKeys_congr (compile : String → Option (String → Bool))
    (o o' : CompareOptions) (map1 map2 : List (String × Value)) (path : String)
    (hIC : o.IgnoreCase = o'.IgnoreCase) (hKO : o.KeysOnly = o'.KeysOnly)
    (hcv : ∀ v1 v2 p, compareValues compile v1 v2 p o = compareValues compile v1 v2 p o')
    (hrec : ∀ kv : String × Value, kv ∈ map1 → ∀ v2 p,
      findDifferencesWithOptions compile kv.2 v2 p o =
        findDifferencesWithOptions compile kv.2 v2 p o') :
    ∀ keys, compareObjKeys compile o map1 map2 path keys =
      compareObjKeys compile o' map1 map2 path keys := by
  intro keys
  induction keys with
  | nil => rw [compareObjKeys_nil, compareObjKeys_nil]
  | cons key rest ih =>
    rw [compareObjKeys_cons, compareObjKeys_cons, ih,
      objKeyStep_congr compile o o' map1 map2 path key hIC hKO hcv hrec]

theorem compareArrayElems_congr (compile : String → Option (String → Bool))
    (o o' : CompareOptions) (path : String)
    (hKO : o.KeysOnly = o'.KeysOnly)
    (hcv : ∀ v1 v2 p, compareValues compile v1 v2 p o = compareValues compile v1 v2 p o') :
    ∀ a1 : List Value,
      (∀ w ∈ a1, ∀ v2 p,
        findDifferencesWithOptions compile w v2 p o =
          findDifferencesWithOptions compile w v2 p o') →
      ∀ a2 i, compareArrayElems compile o path i a1 a2 =
        compareArrayElems compile o' path i a1 a2 := by
  intro a1
  induction a1 with
  | nil =>
    intro _ a2 i
    rw [compareArrayElems_nil_left, compareArrayElems_nil_left]
  | cons v1 r1 ih =>
    intro hrec a2 i
    cases a2 with
    | nil => rw [compareArrayElems_nil_right, compareArrayElems_nil_right]
    | cons v2 r2 =>
      rw [compareArrayElems_cons, compareArrayElems_cons,
        ih (fun w hw => hrec w (List.mem_cons_of_mem v1 hw)) r2 (i + 1)]
      congr 1
      unfold arrElemStep
      simp only [hKO, hcv, hrec v1 (List.mem_cons_self v1 r1)]

theorem findDiff_congr (compile : String → Option (String → Bool))
    (o o' : CompareOptions)
    (hIC : o.IgnoreCase = o'.IgnoreCase) (hKO : o.KeysOnly = o'.KeysOnly)
    (hcv : ∀ v1 v2 p, compareValues compile v1 v2 p o = compareValues compile v1 v2 p o') :
    ∀ v1 v2 path, findDifferencesWithOptions compile v1 v2 path o =
      findDifferencesWithOptions compile v1 v2 path o' := by
  intro v1
  induction v1 using value_strong_induction with
  | step v1 ih =>
    intro v2 path
    by_cases htag : typeOf v1 = typeOf v2
    · cases v1 with
      | null =>
        cases v2 <;> simp [typeOf] at htag
        rw [findDiff_null, findDiff_null, hKO, hcv]
      | bool b1 =>
        cases v2 <;> simp [typeOf] at htag
        rw [findDiff_bool, findDiff_bool, hKO, hcv]
      | num q1 =>
        cases v2 <;> simp [typeOf] at htag
        rw [findDiff_num, findDiff_num, hKO, hcv]
      | str s1 =>
        cases v2 <;> simp [typeOf] at htag
        rw [findDiff_str, findDiff_str, hKO, hcv]
      | arr a1 =>
        cases v2 <;> simp [typeOf] at htag
        next a2 =>
        rw [findDiff_arr, findDiff_arr,
          compareArrayElems_congr compile o o' path hKO hcv a1
            (fun w hw v2' p' => ih w (sizeOf_mem_lt_arr w a1 hw) v2' p') a2 0]
      | obj m1 =>
        cases v2 <;> simp [typeOf] at htag
        next m2 =>
        rw [findDiff_obj, findDiff_obj, hIC,
          compareObjKeys_congr compile o o' m1 m2 path hIC hKO hcv
            (fun kv hkv v2' p' => ih kv.2 (sizeOf_snd_lt_obj kv m1 hkv) v2' p')]
    · rw [findDiff_typeGate _ _ _ _ _ htag, findDiff_typeGate _ _ _ _ _ htag]

theorem contains_isEmpty_false {l : List String} {x : String}
    (h : l.contains x = true) : l.isEmpty = false := by
  cases l with
  | nil => simp at h
  | cons a r => rfl

theorem cond5_eq (v1 v2 : Value) (b : Bool) :
    (b && (compareBooleanValues v1 v2).2 && (compareBooleanValues v1 v2).1) =
      (b && match boolCoerce v1, boolCoerce v2 with
       | some b1, some b2 => b1 == b2
       | _, _ => false) := by
  unfold compareBooleanValues
  rcases boolCoerce v1 with _ | b1 <;> rcases boolCoerce v2 with _ | b2 <;> simp

theorem cond3_eq (compile : String → Option (String → Bool))
    (v1 v2 : Value) (path : String) (o : CompareOptions) :
    (!o.RegexMatches.isEmpty &&
      (match lookupPattern o.RegexMatches path with
       | some pattern => matchesRegex compile v1 v2 pattern == some true
       | none => false)) =
      (match lookupPattern o.RegexMatches path, v1, v2 with
       | some pat, .str s1, .str s2 =>
         (match compile pat with
          | some re => re s1 && re s2
          | none => false)
       | _, _, _ => false) := by
  rcases hl : lookupPattern o.RegexMatches path with _ | pat
  · cases v1 <;> cases v2 <;> simp
  · have hne : o.RegexMatches.isEmpty = false := lookupPattern_nonempty _ _ _ hl
    rw [hne]
    cases v1 <;> cases v2 <;> simp only [matchesRegex] <;> try simp
    cases hc : compile pat <;> simp [hc]

theorem compareValues_eq_specEqual (compile : String → Option (String → Bool))
    (v1 v2 : Value) (path : String) (o : CompareOptions) (hKO : o.KeysOnly = false) :
    compareValues compile v1 v2 path o = specEqual compile v1 v2 path o := by
  unfold compareValues specEqual
  rw [hKO]
  simp only [Bool.not_false, Bool.true_and, Bool.and_true]
  rw [cond3_eq compile v1 v2 path o]
  simp only [cond5_eq, compareNumericValues]
  cases v1 with
  | str s1 =>
    cases v2 with
    | str s2 =>
      by_cases hcont : o.LevenshteinKeys.contains path = true
      · have hne : o.LevenshteinKeys.isEmpty = false := contains_isEmpty_false hcont
        by_cases ht : (0 : Int) < o.LevenshteinThreshold
        · have hgt : decide ((0 : Int) < o.LevenshteinThreshold) = true := by
            simpa using ht
          have hge : decide ((0 : Int) ≤ o.LevenshteinThreshold) = true := by
            simp
            omega
          simp [compareLevenshtein, hcont, hne, hgt, hge]
        · by_cases hge : (0 : Int) ≤ o.LevenshteinThreshold
          · have ht0 : o.LevenshteinThreshold = 0 := by omega
            by_cases hd : levenshtein s1.data s2.data = 0
            · have hs : s1 = s2 := String.ext ((levenshtein_eq_zero_iff _ _).mp hd)
              subst hs
              have hc4code : (!o.LevenshteinKeys.isEmpty &&
                  decide ((0 : Int) < o.LevenshteinThreshold) &&
                  o.LevenshteinKeys.contains path &&
                  compareLevenshtein (.str s1) (.str s1) o.LevenshteinThreshold) = false := by
                simp [ht0]
              have hc4spec : (match Value.str s1, Value.str s1 with
                  | Value.str s1, Value.str s2 =>
                    o.LevenshteinKeys.contains path &&
                      decide ((0 : Int) ≤ o.LevenshteinThreshold) &&
                      decide ((levenshtein s1.data s2.data : Int) ≤ o.LevenshteinThreshold)
                  | _, _ => false) = true := by
                dsimp only
                rw [hcont, ht0, hd]
                simp
              rw [hc4code, hc4spec]
              simp only [Bool.false_eq_true, if_false, if_true]
              refine if_congr Iff.rfl rfl (if_congr Iff.rfl rfl (if_congr Iff.rfl rfl ?_))
              have hde : deepEqual (.str s1) (.str s1) = true := by simp [deepEqual]
              split
              · rfl
              · split
                · rfl
                · exact hde
            · have hdle : decide ((levenshtein s1.data s2.data : Int) ≤
                  o.LevenshteinThreshold) = false := by
                simp
                omega
              have hgt : decide ((0 : Int) < o.LevenshteinThreshold) = false := by
                simp
                omega
              simp [compareLevenshtein, hgt, hdle]
          · have hgt : decide ((0 : Int) < o.LevenshteinThreshold) = false := by
              simp
              omega
            have hge2 : decide ((0 : Int) ≤ o.LevenshteinThreshold) = false := by
              simp
              omega
            simp [compareLevenshtein, hgt, hge2]
      · have hcont2 : o.LevenshteinKeys.contains path = false := by
          simpa using hcont
        simp only [compareLevenshtein, hcont2, Bool.and_false, Bool.false_and]
    | null => simp [compareLevenshtein]
    | bool b => simp [compareLevenshtein]
    | num q => simp [compareLevenshtein]
    | arr a => simp [compareLevenshtein]
    | obj m => simp [compareLevenshtein]
  | null => cases v2 <;> simp [compareLevenshtein]
  | bool b => cases v2 <;> simp [compareLevenshtein]
  | num q => cases v2 <;> simp [compareLevenshtein]
  | arr a => cases v2 <;> simp [compareLevenshtein]
  | obj m => cases v2 <;> simp [compareLevenshtein]

theorem regex_short_circuit (compile : String → Option (String → Bool))
    (s1 s2 : String) (path : String) (options : CompareOptions) (pat : String)
    (re : String → Bool) (hKO : options.KeysOnly = false)
    (hpat : lookupPattern options.RegexMatches path = some pat)
    (hre : compile pat = some re) (h1 : re s1 = true) (h2 : re s2 = true) :
    findDifferencesWithOptions compile (.str s1) (.str s2) path options = [] := by
  have hcv : compareValues compile (.str s1) (.str s2) path options = true := by
    unfold compareValues
    rw [hKO]
    have hne : options.RegexMatches.isEmpty = false := lookupPattern_nonempty _ _ _ hpat
    simp only [hpat, hne, matchesRegex, hre, h1, h2, Bool.not_false, Bool.true_and,
      Bool.and_true]
    split
    · rfl
    · split
      · rfl
      · simp
  rw [findDiff_str, hKO, hcv]
  simp

theorem cv_fuzzy (compile : String → Option (String → Bool)) (s1 s2 path : String) (t : Int) :
    compareValues compile (.str s1) (.str s2) path
        { LevenshteinKeys := [path], LevenshteinThreshold := t } =
      ((decide ((0 : Int) < t) && decide ((levenshtein s1.data s2.data : Int) ≤ t)) ||
        (s1 == s2)) := by
  unfold compareValues
  simp [compareLevenshtein, deepEqual]

theorem fuzzy_policy_iff (s1 s2 path : String) (t : Int) (ht : 0 ≤ t) :
    (findDifferencesWithOptions noRegex (.str s1) (.str s2) path
        { LevenshteinKeys := [path], LevenshteinThreshold := t } = [] ↔
      (levenshtein s1.data s2.data : Int) ≤ t) := by
  rw [findDiff_str]
  cases hcv : compareValues noRegex (.str s1) (.str s2) path
      { LevenshteinKeys := [path], LevenshteinThreshold := t } with
  | false =>
    rw [cv_fuzzy] at hcv
    simp only [Bool.or_eq_false_iff, Bool.and_eq_false_iff] at hcv
    obtain ⟨hand, hbeq⟩ := hcv
    have hne : s1 ≠ s2 := by
      intro h
      rw [h] at hbeq
      simp at hbeq
    have hd0 : levenshtein s1.data s2.data ≠ 0 := fun h0 =>
      hne (String.ext ((levenshtein_eq_zero_iff _ _).mp h0))
    simp
    rcases hand with h | h
    · have hnt : ¬((0 : Int) < t) := by simpa using h
      omega
    · have := of_decide_eq_false h
      omega
  | true =>
    rw [cv_fuzzy] at hcv
    simp only [Bool.or_eq_true, Bool.and_eq_true] at hcv
    simp
    rcases hcv with ⟨h1, h2⟩ | h
    · simpa using h2
    · have hs : s1 = s2 := eq_of_beq h
      subst hs
      have h0 : levenshtein s1.data s1.data = 0 := (levenshtein_eq_zero_iff _ _).mpr rfl
      rw [h0]
      simpa using ht


theorem find?_perm_unique {α : Type} (p : α → Bool) :
    ∀ {l1 l2 : List α}, l1.Perm l2 →
      l1.Pairwise (fun a b => ¬(p a = true ∧ p b = true)) →
      l1.find? p = l2.find? p := by
  intro l1 l2 hperm
  induction hperm with
  | nil => intro _; rfl
  | cons x h ih =>
    intro hpw
    rw [List.find?_cons, List.find?_cons]
    cases hx : p x
    · exact ih (List.pairwise_cons.mp hpw).2
    · rfl
  | swap x y l =>
    intro hpw
    rw [List.find?_cons, List.find?_cons, List.find?_cons, List.find?_cons]
    cases hx : p x <;> cases hy : p y
    · rfl
    · rfl
    · rfl
    · exfalso
      exact (List.pairwise_cons.mp hpw).1 x (List.mem_cons_self x l) ⟨hy, hx⟩
  | trans h1 h2 ih1 ih2 =>
    intro hpw
    rw [ih1 hpw, ih2 ((h1.pairwise_iff (fun h => fun hab => h ⟨hab.2, hab.1⟩)).mp hpw)]

theorem nodup_fold_pairwise (ic : Bool) (m : List (String × Value)) (key : String)
    (hnd : (canonKeys ic m).Nodup) :
    m.Pairwise (fun a b : String × Value =>
      ¬(((if ic then strToLower a.1 else a.1) == key) = true ∧
        ((if ic then strToLower b.1 else b.1) == key) = true)) := by
  unfold canonKeys at hnd
  cases ic
  · simp only [if_false, Bool.false_eq_true] at hnd ⊢
    have hpw := List.pairwise_map.mp hnd
    exact hpw.imp (fun h ⟨ha, hb⟩ => h (by rw [eq_of_beq ha, eq_of_beq hb]))
  · simp only [if_true] at hnd ⊢
    have hpw := List.pairwise_map.mp hnd
    exact hpw.imp (fun h ⟨ha, hb⟩ => h (by rw [eq_of_beq ha, eq_of_beq hb]))

theorem sideLookup_perm (ic : Bool) {m m' : List (String × Value)} (hperm : m.Perm m')
    (hnd : (canonKeys ic m).Nodup) (key : String) :
    sideLookup ic m key = sideLookup ic m' key := by
  have hpw := nodup_fold_pairwise ic m key hnd
  cases ic
  · simp only [if_false, Bool.false_eq_true] at hpw
    unfold sideLookup lookupKey
    simp only [Bool.false_eq_true, if_false]
    exact find?_perm_unique _ hperm hpw
  · simp only [if_true] at hpw
    unfold sideLookup foldLookup
    simp only [if_true]
    apply find?_perm_unique _
      ((List.reverse_perm m).trans (hperm.trans (List.reverse_perm m').symm))
    rw [List.pairwise_reverse]
    exact hpw.imp (fun h ⟨ha, hb⟩ => h ⟨hb, ha⟩)

theorem canonKeys_perm (ic : Bool) {m m' : List (String × Value)} (h : m.Perm m') :
    (canonKeys ic m).Perm (canonKeys ic m') := by
  unfold canonKeys
  cases ic
  · exact h.map _
  · exact h.map _

theorem allKeysSorted_perm {k1 k1' k2 k2' : List String}
    (h1 : k1.Perm k1') (h2 : k2.Perm k2') :
    allKeysSorted k1 k2 = allKeysSorted k1' k2' := by
  unfold allKeysSorted
  refine List.eq_of_perm_of_sorted ?_ (List.sorted_insertionSort _ _)
    (List.sorted_insertionSort _ _)
  exact (List.perm_insertionSort _ _).trans
    (((h1.append h2).dedup).trans (List.perm_insertionSort _ _).symm)

theorem allKeysSorted_sorted (k1 k2 : List String) :
    List.Sorted (· < ·) (allKeysSorted k1 k2) := by
  unfold allKeysSorted
  have hs : List.Sorted (· ≤ ·) (((k1 ++ k2).dedup).insertionSort (· ≤ ·)) :=
    List.sorted_insertionSort _ _
  have hnd : (((k1 ++ k2).dedup).insertionSort (· ≤ ·)).Nodup :=
    ((List.perm_insertionSort _ _).nodup_iff).mpr (List.nodup_dedup _)
  exact (hs.and hnd).imp (fun h => lt_of_le_of_ne h.1 h.2)

theorem objKeyStep_lookup_congr (compile : String → Option (String → Bool))
    (o : CompareOptions) (l1 l1' l2 l2' : List (String × Value)) (path key : String)
    (e1 : sideLookup o.IgnoreCase l1 key = sideLookup o.IgnoreCase l1' key)
    (e2 : sideLookup o.IgnoreCase l2 key = sideLookup o.IgnoreCase l2' key) :
    objKeyStep compile o l1 l2 path key = objKeyStep compile o l1' l2' path key := by
  unfold objKeyStep
  rw [e1, e2]

theorem compareObjKeys_lookup_congr (compile : String → Option (String → Bool))
    (o : CompareOptions) (l1 l1' l2 l2' : List (String × Value)) (path : String)
    (e1 : ∀ key, sideLookup o.IgnoreCase l1 key = sideLookup o.IgnoreCase l1' key)
    (e2 : ∀ key, sideLookup o.IgnoreCase l2 key = sideLookup o.IgnoreCase l2' key) :
    ∀ keys, compareObjKeys compile o l1 l2 path keys =
      compareObjKeys compile o l1' l2' path keys := by
  intro keys
  induction keys with
  | nil => rw [compareObjKeys_nil, compareObjKeys_nil]
  | cons k r ih =>
    rw [compareObjKeys_cons, compareObjKeys_cons, ih,
      objKeyStep_lookup_congr compile o l1 l1' l2 l2' path k (e1 k) (e2 k)]

theorem compareObjKeys_eq_flatMap (compile : String → Option (String → Bool))
    (options : CompareOptions) (map1 map2 : List (String × Value)) (path : String) :
    ∀ keys, compareObjKeys compile options map1 map2 path keys =
      keys.flatMap (objKeyStep compile options map1 map2 path) := by
  intro keys
  induction keys with
  | nil => rw [compareObjKeys_nil]; rfl
  | cons k r ih => rw [compareObjKeys_cons, ih]; rfl

theorem foldLookup_foldDedup (k : String) :
    ∀ l : List (String × Value), foldLookup (foldDedup l) k = foldLookup l k := by
  intro l
  induction l with
  | nil => rfl
  | cons kv rest ih =>
    unfold foldDedup
    split
    · next hcont =>
      rw [ih]
      unfold foldLookup
      rw [List.reverse_cons, List.find?_append]
      rcases hf : rest.reverse.find? (fun p => strToLower p.1 == k) with _ | x
      · by_cases hkk : (strToLower kv.1 == k) = true
        · exfalso
          have hk' : strToLower kv.1 = k := eq_of_beq hkk
          have hx : strToLower kv.1 ∈ rest.map (fun p => strToLower p.1) := by
            simpa using hcont
          obtain ⟨y, hy, hyfold⟩ := List.mem_map.mp hx
          have hpy : (fun p : String × Value => strToLower p.1 == k) y = true := by
            simp [hyfold, hk']
          exact absurd hpy (List.find?_eq_none.mp hf y (List.mem_reverse.mpr hy))
        · have hkk' : (strToLower kv.1 == k) = false := by simpa using hkk
          simp [hf, List.find?_cons, hkk']
      · simp [hf]
    · next hcont =>
      unfold foldLookup
      rw [List.reverse_cons, List.reverse_cons, List.find?_append, List.find?_append]
      have heq := ih
      unfold foldLookup at heq
      rw [heq]

theorem foldDedup_map_mem (x : String) :
    ∀ l : List (String × Value),
      (x ∈ (foldDedup l).map (fun kv => strToLower kv.1) ↔
        x ∈ l.map (fun kv => strToLower kv.1)) := by
  intro l
  induction l with
  | nil => exact Iff.rfl
  | cons kv rest ih =>
    unfold foldDedup
    split
    · next hcont =>
      rw [ih]
      simp only [List.map_cons, List.mem_cons]
      constructor
      · exact Or.inr
      · rintro (hx | hx)
        · subst hx
          simpa using hcont
        · exact hx
    · next =>
      simp only [List.map_cons, List.mem_cons]
      rw [ih]

theorem canonKeys_true_eq (m : List (String × Value)) :
    canonKeys true m = m.map (fun kv => strToLower kv.1) := rfl

theorem allKeysSorted_congr_left {k1 k1' k2 : List String}
    (h : ∀ x, x ∈ k1 ↔ x ∈ k1') : allKeysSorted k1 k2 = allKeysSorted k1' k2 := by
  unfold allKeysSorted
  have hmid : ((k1 ++ k2).dedup).Perm ((k1' ++ k2).dedup) := by
    apply (List.perm_ext_iff_of_nodup (List.nodup_dedup _) (List.nodup_dedup _)).mpr
    intro a
    simp [List.mem_dedup, h a]
  exact List.eq_of_perm_of_sorted
    ((List.perm_insertionSort _ _).trans
      (hmid.trans (List.perm_insertionSort _ _).symm))
    (List.sorted_insertionSort _ _) (List.sorted_insertionSort _ _)

theorem allKeysSorted_congr_right {k1 k2 k2' : List String}
    (h : ∀ x, x ∈ k2 ↔ x ∈ k2') : allKeysSorted k1 k2 = allKeysSorted k1 k2' := by
  unfold allKeysSorted
  have hmid : ((k1 ++ k2).dedup).Perm ((k1 ++ k2').dedup) := by
    apply (List.perm_ext_iff_of_nodup (List.nodup_dedup _) (List.nodup_dedup _)).mpr
    intro a
    simp [List.mem_dedup, h a]
  exact List.eq_of_perm_of_sorted
    ((List.perm_insertionSort _ _).trans
      (hmid.trans (List.perm_insertionSort _ _).symm))
    (List.sorted_insertionSort _ _) (List.sorted_insertionSort _ _)

theorem sideLookup_fold_unique (l1 : List (String × Value)) (k1 : String) (v1 : Value)
    (key : String) (hnd : (canonKeys true l1).Nodup) (hmem : (k1, v1) ∈ l1)
    (hfold : strToLower k1 = key) :
    sideLookup true l1 key = some (k1, v1) := by
  show foldLookup l1 key = some (k1, v1)
  unfold foldLookup
  rcases hfind : l1.reverse.find? (fun kv => strToLower kv.1 == key) with _ | x
  · exfalso
    have hpred : (fun kv : String × Value => strToLower kv.1 == key) (k1, v1) = true := by
      simp [hfold]
    exact absurd hpred (List.find?_eq_none.mp hfind (k1, v1) (List.mem_reverse.mpr hmem))
  · have hx_mem : x ∈ l1 := List.mem_reverse.mp (List.mem_of_find?_eq_some hfind)
    have hx_pred := List.find?_some hfind
    have hnd' : (l1.map (fun kv => strToLower kv.1)).Nodup := hnd
    have hxe : x = (k1, v1) := by
      apply List.inj_on_of_nodup_map hnd' hx_mem hmem
      show strToLower x.1 = strToLower (k1, v1).1
      rw [eq_of_beq hx_pred, hfold]
    rw [hfind, hxe]

theorem sideLookup_none_of_not_mem (l1 : List (String × Value)) (key : String)
    (h : key ∉ canonKeys true l1) : sideLookup true l1 key = none := by
  show foldLookup l1 key = none
  unfold foldLookup
  apply List.find?_eq_none.mpr
  intro x hx hpx
  apply h
  show key ∈ l1.map (fun kv => strToLower kv.1)
  exact List.mem_map.mpr ⟨x, List.mem_reverse.mp hx, eq_of_beq hpx⟩

theorem objKeyStep_left_casing (compile : String → Option (String → Bool))
    (o : CompareOptions) (l1 l2 : List (String × Value)) (path key k1 : String)
    (v1 : Value) (hIC : o.IgnoreCase = true) (hnd : (canonKeys true l1).Nodup)
    (hmem : (k1, v1) ∈ l1) (hfold : strToLower k1 = key) :
    ∀ d ∈ objKeyStep compile o l1 l2 path key, pathExtends d.Path (joinPath path k1) := by
  intro d hd
  unfold objKeyStep at hd
  rw [hIC, sideLookup_fold_unique l1 k1 v1 key hnd hmem hfold] at hd
  rcases h2 : sideLookup true l2 key with _ | kv2
  · rw [h2] at hd
    simp only [List.mem_singleton] at hd
    subst hd
    exact pathExtends_self _
  · rw [h2] at hd
    simp only [] at hd
    split at hd
    · split at hd
      · exact prefix_main _ compile o kv2.2 _ d hd
      · exact absurd hd (List.not_mem_nil d)
    · split at hd
      · split at hd
        · exact prefix_main _ compile o kv2.2 _ d hd
        · simp only [List.mem_singleton] at hd
          subst hd
          exact pathExtends_self _
      · exact absurd hd (List.not_mem_nil d)

theorem objKeyStep_right_casing (compile : String → Option (String → Bool))
    (o : CompareOptions) (l1 l2 : List (String × Value)) (path key k2 : String)
    (v2 : Value) (hIC : o.IgnoreCase = true) (hnotin : key ∉ canonKeys true l1)
    (hnd2 : (canonKeys true l2).Nodup) (hmem : (k2, v2) ∈ l2)
    (hfold : strToLower k2 = key) :
    objKeyStep compile o l1 l2 path key =
      [⟨joinPath path k2, .KeyOnlyInSecond, .value .null, .value v2⟩] := by
  unfold objKeyStep
  rw [hIC, sideLookup_none_of_not_mem l1 key hnotin,
    sideLookup_fold_unique l2 k2 v2 key hnd2 hmem hfold]

/-! Claim theorems. -/

/-- C1: whenever the comparator is invoked on left and right values with
different variant tags -- at any path, i.e. in any call, including the
recursive calls on object members and array elements -- it returns exactly
one TypeMismatch diff at that path, carrying both variant tags as
left/right, and nothing else (children are not visited). -/
theorem C1_type_gate (compile : String → Option (String → Bool))
    (v1 v2 : Value) (path : String) (options : CompareOptions)
    (h : typeOf v1 ≠ typeOf v2) :
    findDifferencesWithOptions compile v1 v2 path options =
      [⟨path, .TypeMismatch, .typeTag (typeOf v1), .typeTag (typeOf v2)⟩] :=
  findDiff_typeGate compile v1 v2 path options h

theorem C1_type_gate_witness :
    typeOf (Value.num 1) ≠ typeOf (Value.str "x") ∧
    findDifferencesWithOptions noRegex (.num 1) (.str "x") "root" {} =
      [⟨"root", .TypeMismatch, .typeTag (some .numberT), .typeTag (some .stringT)⟩] :=
  ⟨by decide, C1_type_gate noRegex (.num 1) (.str "x") "root" {} (by decide)⟩

/-- C2 counterexample: comparing the top-level values 1 and "1.0" does not
behave as the claim states: with ignoreNumericType=true the result is a
single TypeMismatch (so not the claimed empty sequence), and with it false
the result carries no ValueMismatch (the single diff is a TypeMismatch):
the type gate fires before any numeric coercion is consulted. -/
theorem C2_counterexample :
    findDifferencesWithOptions noRegex (.num 1) (.str "1.0") ""
        { IgnoreNumericType := true } ≠ [] ∧
    reportsAt (findDifferencesWithOptions noRegex (.num 1) (.str "1.0") ""
        { IgnoreNumericType := false }) .ValueMismatch "" = false := by
  constructor
  · rw [findDiff_typeGate _ _ _ _ _ (by decide)]
    simp
  · rw [findDiff_typeGate _ _ _ _ _ (by decide)]
    rfl

/-- C2 amended: at top level, 1 vs "1.0" hits the type gate and yields
exactly one TypeMismatch under either setting of ignoreNumericType; the
claimed behaviour holds one level down, where 1 and "1.0" are object
member values: empty diff sequence under ignoreNumericType=true and
exactly one ValueMismatch under ignoreNumericType=false. -/
theorem C2_amended :
    findDifferencesWithOptions noRegex (.obj [("k", .num 1)]) (.obj [("k", .str "1.0")]) ""
        { IgnoreNumericType := true } = [] ∧
    findDifferencesWithOptions noRegex (.obj [("k", .num 1)]) (.obj [("k", .str "1.0")]) ""
        { IgnoreNumericType := false } =
      [⟨"k", .ValueMismatch, .value (.num 1), .value (.str "1.0")⟩] ∧
    findDifferencesWithOptions noRegex (.num 1) (.str "1.0") ""
        { IgnoreNumericType := true } =
      [⟨"", .TypeMismatch, .typeTag (some .numberT), .typeTag (some .stringT)⟩] ∧
    findDifferencesWithOptions noRegex (.num 1) (.str "1.0") ""
        { IgnoreNumericType := false } =
      [⟨"", .TypeMismatch, .typeTag (some .numberT), .typeTag (some .stringT)⟩] := by
  refine ⟨?_, ?_, ?_, ?_⟩
  · rw [findDiff_obj]
    show compareObjKeys _ _ _ _ _ ("k" :: []) = _
    rw [compareObjKeys_cons, compareObjKeys_nil]
    rfl
  · rw [findDiff_obj]
    show compareObjKeys _ _ _ _ _ ("k" :: []) = _
    rw [compareObjKeys_cons, compareObjKeys_nil]
    rfl
  · rw [findDiff_typeGate _ _ _ _ _ (by decide)]
    rfl
  · rw [findDiff_typeGate _ _ _ _ _ (by decide)]
    rfl

/-- C3 counterexample: type-mismatch reporting is not symmetric at nested
paths.  With left member a container and right member a primitive, the
container-first orientation reports a TypeMismatch at "k", but the swapped
orientation reports a ValueMismatch there and no TypeMismatch: recursion
into a member happens only when the left value is complex. -/
theorem C3_counterexample :
    reportsAt (findDifferencesWithOptions noRegex (.obj [("k", .arr [])])
      (.obj [("k", .num 5)]) "" {}) .TypeMismatch "k" = true ∧
    reportsAt (findDifferencesWithOptions noRegex (.obj [("k", .num 5)])
      (.obj [("k", .arr [])]) "" {}) .TypeMismatch "k" = false := by
  constructor
  · rw [findDiff_obj]
    show reportsAt (compareObjKeys _ _ _ _ _ ("k" :: [])) _ _ = true
    rw [compareObjKeys_cons, compareObjKeys_nil, List.append_nil]
    rw [show objKeyStep noRegex {} [("k", .arr [])] [("k", .num 5)] "" "k" =
      findDifferencesWithOptions noRegex (.arr []) (.num 5) "k" {} from rfl]
    rw [findDiff_typeGate _ _ _ _ _ (by decide)]
    rfl
  · rw [findDiff_obj]
    show reportsAt (compareObjKeys _ _ _ _ _ ("k" :: [])) _ _ = false
    rw [compareObjKeys_cons, compareObjKeys_nil, List.append_nil]
    rfl

/-- C3 amended: symmetry does hold for the type gate itself: whenever the
two values handed to one comparator call have different variant tags, both
orientations emit exactly one TypeMismatch diff at that call's path with
the left/right tags swapped.  At nested member positions the claimed
symmetry fails (see the counterexample): a container-vs-primitive member
pair yields TypeMismatch in the container-first orientation but
ValueMismatch in the primitive-first orientation. -/
theorem C3_amended (compile : String → Option (String → Bool))
    (v1 v2 : Value) (path : String) (options : CompareOptions)
    (h : typeOf v1 ≠ typeOf v2) :
    findDifferencesWithOptions compile v1 v2 path options =
      [⟨path, .TypeMismatch, .typeTag (typeOf v1), .typeTag (typeOf v2)⟩] ∧
    findDifferencesWithOptions compile v2 v1 path options =
      [⟨path, .TypeMismatch, .typeTag (typeOf v2), .typeTag (typeOf v1)⟩] :=
  ⟨findDiff_typeGate compile v1 v2 path options h,
    findDiff_typeGate compile v2 v1 path options (Ne.symm h)⟩

theorem C3_amended_witness :
    typeOf (Value.bool true) ≠ typeOf Value.null ∧
    (findDifferencesWithOptions noRegex (.bool true) .null "p" {} =
      [⟨"p", .TypeMismatch, .typeTag (some .boolT), .typeTag none⟩] ∧
    findDifferencesWithOptions noRegex .null (.bool true) "p" {} =
      [⟨"p", .TypeMismatch, .typeTag none, .typeTag (some .boolT)⟩]) :=
  ⟨by decide, C3_amended noRegex (.bool true) .null "p" {} (by decide)⟩

/-- C9: in structure-only mode (KeysOnly), the returned diff sequence
contains no ValueMismatch at any nesting depth, while containers are still
recursed into -- witnessed by a nested key-only difference surfacing from
one level down. -/
theorem C9_keysOnly_no_value_mismatch :
    (∀ compile (v1 v2 : Value) (path : String) (options : CompareOptions) d,
      options.KeysOnly = true →
      d ∈ findDifferencesWithOptions compile v1 v2 path options →
        d.Kind ≠ DiffType.ValueMismatch) ∧
    findDifferencesWithOptions noRegex (.obj [("a", .obj [("b", .num 1)])])
        (.obj [("a", .obj [])]) "" { KeysOnly := true } =
      [⟨"a.b", .KeyOnlyInFirst, .value (.num 1), .value .null⟩] := by
  constructor
  · intro compile v1 v2 path options d hKO hd
    exact noVM_main v1 compile options v2 path d hKO hd
  · rw [findDiff_obj]
    show compareObjKeys _ _ _ _ _ ("a" :: []) = _
    rw [compareObjKeys_cons, compareObjKeys_nil, List.append_nil]
    rw [show objKeyStep noRegex { KeysOnly := true } [("a", .obj [("b", .num 1)])]
        [("a", .obj [])] "" "a" =
      findDifferencesWithOptions noRegex (.obj [("b", .num 1)]) (.obj []) "a"
        { KeysOnly := true } from rfl]
    rw [findDiff_obj]
    show compareObjKeys _ _ _ _ _ ("b" :: []) = _
    rw [compareObjKeys_cons, compareObjKeys_nil, List.append_nil]
    rfl


/-- C4: the equivalence evaluator applies the relaxation rules in the
spec's fixed precedence order -- value-case folding, null wildcard,
path-scoped regex, path-scoped fuzzy match, boolean coercion, numeric
coercion, then deep structural equality -- declaring the pair equal at the
first rule that matches: outside structure-only mode `compareValues`
coincides with `specEqual`, the evaluator written directly from the spec's
rule list.  In particular, when a path carries a regex rule whose pattern
compiles and both strings match it, no ValueMismatch is emitted at that
path regardless of the numeric-coercion setting. -/
theorem C4_precedence :
    (∀ compile (v1 v2 : Value) (path : String) (options : CompareOptions),
      options.KeysOnly = false →
      compareValues compile v1 v2 path options = specEqual compile v1 v2 path options) ∧
    (∀ compile (s1 s2 path pat : String) (re : String → Bool) (options : CompareOptions),
      options.KeysOnly = false →
      lookupPattern options.RegexMatches path = some pat →
      compile pat = some re → re s1 = true → re s2 = true →
      findDifferencesWithOptions compile (.str s1) (.str s2) path options = []) :=
  ⟨fun compile v1 v2 path options h =>
      compareValues_eq_specEqual compile v1 v2 path options h,
    fun compile s1 s2 path pat re options h hp hr h1 h2 =>
      regex_short_circuit compile s1 s2 path options pat re h hp hr h1 h2⟩

theorem C4_precedence_witness :
    ({ RegexMatches := [("p", "[0-9]+")], IgnoreNumericType := true } :
        CompareOptions).KeysOnly = false ∧
    lookupPattern [("p", "[0-9]+")] "p" = some "[0-9]+" ∧
    digitsOnlyEngine "[0-9]+" = some digitMatcher ∧
    digitMatcher "12" = true ∧ digitMatcher "7" = true ∧
    compareValues digitsOnlyEngine (.str "12") (.str "7") "p"
        { RegexMatches := [("p", "[0-9]+")], IgnoreNumericType := true } =
      specEqual digitsOnlyEngine (.str "12") (.str "7") "p"
        { RegexMatches := [("p", "[0-9]+")], IgnoreNumericType := true } ∧
    findDifferencesWithOptions digitsOnlyEngine (.str "12") (.str "7") "p"
        { RegexMatches := [("p", "[0-9]+")], IgnoreNumericType := true } = [] :=
  ⟨rfl, rfl, rfl, rfl, rfl,
    C4_precedence.1 digitsOnlyEngine _ _ _ _ rfl,
    C4_precedence.2 digitsOnlyEngine "12" "7" "p" "[0-9]+" digitMatcher _
      rfl rfl rfl rfl rfl⟩


/-- C6: under a policy whose fuzzyPaths contain the path, with both sides
strings and fuzzyThreshold >= 0 and no other relaxation active, the
comparison declares the pair equal exactly when their edit distance
(insertions, deletions, substitutions each costing 1) is at most the
threshold; "hello" vs "hallo" at threshold 1 compare equal, while two
strings at distance 2 with threshold 1 yield exactly one ValueMismatch.
(At threshold 0 the source skips the fuzzy rule -- its guard is
`LevenshteinThreshold > 0` -- but the deep-equality fallback accepts
exactly the distance-0 pairs, so the stated equivalence still holds for
every threshold >= 0.) -/
theorem C6_fuzzy :
    (∀ (s1 s2 path : String) (t : Int), 0 ≤ t →
      (findDifferencesWithOptions noRegex (.str s1) (.str s2) path
          { LevenshteinKeys := [path], LevenshteinThreshold := t } = [] ↔
        (levenshtein s1.data s2.data : Int) ≤ t)) ∧
    findDifferencesWithOptions noRegex (.str "hello") (.str "hallo") "name"
        { LevenshteinKeys := ["name"], LevenshteinThreshold := 1 } = [] ∧
    findDifferencesWithOptions noRegex (.str "ab") (.str "cd") "name"
        { LevenshteinKeys := ["name"], LevenshteinThreshold := 1 } =
      [⟨"name", .ValueMismatch, .value (.str "ab"), .value (.str "cd")⟩] := by
  refine ⟨fuzzy_policy_iff, ?_, ?_⟩
  · exact (fuzzy_policy_iff "hello" "hallo" "name" 1 (by decide)).mpr
      (by rw [show levenshtein "hello".data "hallo".data = 1 from by simp [levenshtein]]
          norm_num)
  · rw [findDiff_str, cv_fuzzy]
    rw [show levenshtein "ab".data "cd".data = 2 from by simp [levenshtein]]
    rfl

theorem C6_fuzzy_witness :
    (0 : Int) ≤ 1 ∧
    (findDifferencesWithOptions noRegex (.str "hello") (.str "hallo") "name"
        { LevenshteinKeys := ["name"], LevenshteinThreshold := 1 } = [] ↔
      (levenshtein "hello".data "hallo".data : Int) ≤ 1) :=
  ⟨by decide, C6_fuzzy.1 "hello" "hallo" "name" 1 (by decide)⟩


/-- C8: the comparison is deterministic: the diff sequence for an object
comparison is invariant under reordering of either side's member list (the
embedding of Go's unspecified map iteration order), provided canonical
keys are duplicate-free as they are for parsed JSON objects; moreover the
output is the concatenation, over the canonically sorted key union in
strictly ascending lexicographic order, of the per-key diff groups. -/
theorem C8_determinism :
    (∀ compile (options : CompareOptions) (l1 l1' l2 l2' : List (String × Value))
        (path : String),
      l1.Perm l1' → l2.Perm l2' →
      (canonKeys options.IgnoreCase l1).Nodup →
      (canonKeys options.IgnoreCase l2).Nodup →
      findDifferencesWithOptions compile (.obj l1) (.obj l2) path options =
        findDifferencesWithOptions compile (.obj l1') (.obj l2') path options) ∧
    (∀ compile (options : CompareOptions) (l1 l2 : List (String × Value)) (path : String),
      findDifferencesWithOptions compile (.obj l1) (.obj l2) path options =
        (allKeysSorted (canonKeys options.IgnoreCase l1)
          (canonKeys options.IgnoreCase l2)).flatMap
          (objKeyStep compile options l1 l2 path) ∧
      List.Sorted (· < ·)
        (allKeysSorted (canonKeys options.IgnoreCase l1)
          (canonKeys options.IgnoreCase l2))) := by
  constructor
  · intro compile options l1 l1' l2 l2' path h1 h2 hnd1 hnd2
    rw [findDiff_obj, findDiff_obj,
      allKeysSorted_perm (canonKeys_perm _ h1) (canonKeys_perm _ h2)]
    exact compareObjKeys_lookup_congr compile options l1 l1' l2 l2' path
      (fun key => sideLookup_perm _ h1 hnd1 key)
      (fun key => sideLookup_perm _ h2 hnd2 key) _
  · intro compile options l1 l2 path
    exact ⟨by rw [findDiff_obj, compareObjKeys_eq_flatMap],
      allKeysSorted_sorted _ _⟩

theorem C8_determinism_witness :
    ([("a", Value.null), ("b", Value.bool true)].Perm
      [("b", Value.bool true), ("a", Value.null)]) ∧
    ([("c", Value.null)].Perm [("c", Value.null)]) ∧
    (canonKeys ({} : CompareOptions).IgnoreCase
      [("a", Value.null), ("b", Value.bool true)]).Nodup ∧
    (canonKeys ({} : CompareOptions).IgnoreCase [("c", Value.null)]).Nodup ∧
    findDifferencesWithOptions noRegex (.obj [("a", Value.null), ("b", Value.bool true)])
        (.obj [("c", Value.null)]) "" {} =
      findDifferencesWithOptions noRegex (.obj [("b", Value.bool true), ("a", Value.null)])
        (.obj [("c", Value.null)]) "" {} :=
  ⟨List.Perm.swap ("b", Value.bool true) ("a", Value.null) [], List.Perm.refl _,
    by decide, by decide,
    C8_determinism.1 noRegex {} _ _ _ _ ""
      (List.Perm.swap ("b", Value.bool true) ("a", Value.null) [])
      (List.Perm.refl _) (by decide) (by decide)⟩


/-- C10: with IgnoreCase enabled, an object holding two distinct keys that
fold to the same lowercase string behaves exactly like the object with the
fold-shadowed entries removed (the lookup maps keep a single value and a
single original key per lowercase key, the one written last in iteration
order); the shadowed entry never produces a diff of its own.  Concretely,
comparing an object with members "Key" and "KEY" (in that iteration order)
against one with "key" uses only the "KEY" entry. -/
theorem C10_fold_shadowing :
    (∀ compile (options : CompareOptions) (l1 l2 : List (String × Value)) (path : String),
      options.IgnoreCase = true →
      findDifferencesWithOptions compile (.obj l1) (.obj l2) path options =
        findDifferencesWithOptions compile (.obj (foldDedup l1)) (.obj l2) path options) ∧
    (∀ compile (options : CompareOptions) (l1 l2 : List (String × Value)) (path : String),
      options.IgnoreCase = true →
      findDifferencesWithOptions compile (.obj l1) (.obj l2) path options =
        findDifferencesWithOptions compile (.obj l1) (.obj (foldDedup l2)) path options) ∧
    foldDedup [("Key", Value.str "a"), ("KEY", Value.str "b")] = [("KEY", Value.str "b")] ∧
    findDifferencesWithOptions noRegex (.obj [("Key", .str "a"), ("KEY", .str "b")])
        (.obj [("key", .str "a")]) "" { IgnoreCase := true } =
      [⟨"KEY", .ValueMismatch, .value (.str "b"), .value (.str "a")⟩] := by
  refine ⟨?_, ?_, rfl, ?_⟩
  · intro compile options l1 l2 path hIC
    rw [findDiff_obj, findDiff_obj, hIC]
    simp only [canonKeys_true_eq]
    rw [allKeysSorted_congr_left (fun x => (foldDedup_map_mem x l1).symm)]
    exact compareObjKeys_lookup_congr compile options l1 (foldDedup l1) l2 l2 path
      (fun key => by rw [hIC]; exact (foldLookup_foldDedup key l1).symm)
      (fun key => rfl) _
  · intro compile options l1 l2 path hIC
    rw [findDiff_obj, findDiff_obj, hIC]
    simp only [canonKeys_true_eq]
    rw [allKeysSorted_congr_right (fun x => (foldDedup_map_mem x l2).symm)]
    exact compareObjKeys_lookup_congr compile options l1 l1 l2 (foldDedup l2) path
      (fun key => rfl)
      (fun key => by rw [hIC]; exact (foldLookup_foldDedup key l2).symm) _
  · rw [findDiff_obj]
    show compareObjKeys _ _ _ _ _ ("key" :: []) = _
    rw [compareObjKeys_cons, compareObjKeys_nil, List.append_nil]
    rfl

theorem C10_fold_shadowing_witness :
    ({ IgnoreCase := true } : CompareOptions).IgnoreCase = true ∧
    findDifferencesWithOptions noRegex
        (.obj [("Key", Value.str "a"), ("KEY", Value.str "b")])
        (.obj [("key", Value.str "a")]) "" { IgnoreCase := true } =
      findDifferencesWithOptions noRegex
        (.obj (foldDedup [("Key", Value.str "a"), ("KEY", Value.str "b")]))
        (.obj [("key", Value.str "a")]) "" { IgnoreCase := true } :=
  ⟨rfl, C10_fold_shadowing.1 noRegex { IgnoreCase := true }
    [("Key", Value.str "a"), ("KEY", Value.str "b")] [("key", Value.str "a")] "" rfl⟩


/-- C5: with ignoreKeyCase active, keys are folded to lowercase for the
union and lookups, and reported paths carry the original casing of the
owning side, preferring the left side when both sides match
case-insensitively: for fold-unique member lists, the left lookup resolves
a canonical key to the left side's original key whenever the left object
has a case-insensitive match (so every diff the key contributes sits at or
below the path built from that original casing), and a key present only on
the right is reported with the right side's original casing.
Consequently compare of an object with "Name" against one with "name"
yields an empty sequence when ignoreKeyCase is true, and exactly the two
diffs KeyOnlyInLeft "Name" and KeyOnlyInRight "name" when it is false. -/
theorem C5_ignore_key_case :
    findDifferencesWithOptions noRegex (.obj [("Name", .str "A")])
        (.obj [("name", .str "A")]) "" { IgnoreCase := true } = [] ∧
    findDifferencesWithOptions noRegex (.obj [("Name", .str "A")])
        (.obj [("name", .str "A")]) "" {} =
      [⟨"Name", .KeyOnlyInFirst, .value (.str "A"), .value .null⟩,
        ⟨"name", .KeyOnlyInSecond, .value .null, .value (.str "A")⟩] ∧
    (∀ (l1 : List (String × Value)) (k1 : String) (v1 : Value) (key : String),
      (canonKeys true l1).Nodup → (k1, v1) ∈ l1 → strToLower k1 = key →
      sideLookup true l1 key = some (k1, v1)) ∧
    (∀ compile (o : CompareOptions) (l1 l2 : List (String × Value))
        (path key k1 : String) (v1 : Value),
      o.IgnoreCase = true → (canonKeys true l1).Nodup → (k1, v1) ∈ l1 →
      strToLower k1 = key →
      ∀ d ∈ objKeyStep compile o l1 l2 path key,
        pathExtends d.Path (joinPath path k1)) ∧
    (∀ compile (o : CompareOptions) (l1 l2 : List (String × Value))
        (path key k2 : String) (v2 : Value),
      o.IgnoreCase = true → key ∉ canonKeys true l1 →
      (canonKeys true l2).Nodup → (k2, v2) ∈ l2 → strToLower k2 = key →
      objKeyStep compile o l1 l2 path key =
        [⟨joinPath path k2, .KeyOnlyInSecond, .value .null, .value v2⟩]) := by
  refine ⟨?_, ?_, sideLookup_fold_unique, objKeyStep_left_casing,
    objKeyStep_right_casing⟩
  · rw [findDiff_obj]
    show compareObjKeys _ _ _ _ _ ("name" :: []) = _
    rw [compareObjKeys_cons, compareObjKeys_nil, List.append_nil]
    rfl
  · rw [findDiff_obj]
    have hks : allKeysSorted ["Name"] ["name"] = ["Name", "name"] := by
      have h : ("Name" : String) ≤ "name" := by
        rw [String.le_iff_toList_le]
        decide
      have hd : (["Name", "name"] : List String).dedup = ["Name", "name"] := by decide
      simp [allKeysSorted, hd, List.insertionSort, List.orderedInsert, h]
    show compareObjKeys _ _ _ _ _ (allKeysSorted ["Name"] ["name"]) = _
    rw [hks, compareObjKeys_cons, compareObjKeys_cons, compareObjKeys_nil, List.append_nil]
    rfl

theorem C5_ignore_key_case_witness :
    (canonKeys true [("Name", Value.str "A")]).Nodup ∧
    (("Name", Value.str "A") ∈ [("Name", Value.str "A")]) ∧
    strToLower "Name" = "name" ∧
    sideLookup true [("Name", Value.str "A")] "name" = some ("Name", Value.str "A") :=
  ⟨by decide, List.mem_singleton.mpr rfl, rfl,
    C5_ignore_key_case.2.2.1 [("Name", Value.str "A")] "Name" (Value.str "A") "name"
      (by decide) (List.mem_singleton.mpr rfl) rfl⟩

/-- C7: an invalid regex pattern configured for some path never aborts the
comparison: for every input pair and every path, the engine returns the
complete diff sequence it would return were that regex entry absent -- the
rule is treated as inapplicable there and evaluation falls through to the
later rules in precedence order. -/
theorem C7_invalid_regex (compile : String → Option (String → Bool))
    (options : CompareOptions) (q pat : String)
    (hq : lookupPattern options.RegexMatches q = some pat)
    (hbad : compile pat = none) :
    ∀ v1 v2 path, findDifferencesWithOptions compile v1 v2 path options =
      findDifferencesWithOptions compile v1 v2 path
        { options with RegexMatches := eraseKey options.RegexMatches q } :=
  findDiff_congr compile options _ rfl rfl
    (compareValues_eraseInvalid compile options q pat hq hbad)

theorem C7_invalid_regex_witness :
    lookupPattern ([("p", "(")] : List (String × String)) "p" = some "(" ∧
    noRegex "(" = none ∧
    findDifferencesWithOptions noRegex (.str "a") (.str "b") "p"
        { RegexMatches := [("p", "(")] } =
      findDifferencesWithOptions noRegex (.str "a") (.str "b") "p"
        { RegexMatches := eraseKey [("p", "(")] "p" } :=
  ⟨rfl, rfl, C7_invalid_regex noRegex { RegexMatches := [("p", "(")] } "p" "(" rfl rfl
    (.str "a") (.str "b") "p"⟩

theorem C9_keysOnly_witness :
    ({ KeysOnly := true } : CompareOptions).KeysOnly = true ∧
    (⟨"x", DiffType.KeyOnlyInFirst, .value .null, .value .null⟩ : Diff) ∈
      findDifferencesWithOptions noRegex (.obj [("x", .null)]) (.obj []) ""
        { KeysOnly := true } ∧
    (⟨"x", DiffType.KeyOnlyInFirst, .value .null, .value .null⟩ : Diff).Kind ≠
      DiffType.ValueMismatch := by
  refine ⟨rfl, ?_, ?_⟩
  · rw [findDiff_obj]
    show _ ∈ compareObjKeys _ _ _ _ _ ("x" :: [])
    rw [compareObjKeys_cons, compareObjKeys_nil, List.append_nil]
    exact List.mem_singleton.mpr rfl
  · exact C9_keysOnly_no_value_mismatch.1 noRegex (.obj [("x", .null)]) (.obj []) ""
      { KeysOnly := true } _ rfl (by
        rw [findDiff_obj]
        show _ ∈ compareObjKeys _ _ _ _ _ ("x" :: [])
        rw [compareObjKeys_cons, compareObjKeys_nil, List.append_nil]
        exact List.mem_singleton.mpr rfl)

end JsonDiff
